import Mathlib

/-!
# os-diff, package `collectcfg` (`pkg/collectcfg/fetch.go`)

A shallow embedding of the configuration fetcher and of the auto-discovery
updater, and the properties of the commands they issue.

Conventions of the embedding

* A Go `string` is a Lean `String` (the text it holds as UTF-8).
* A Go `error` is an `Option String`: `none` is `nil`.
* The package never looks at the file system or at a process directly: it calls
  `common.ExecCmd`, `common.ExecCmdSimple`, `exec.Command(..).Output`, the YAML
  decoder and encoder, `os.WriteFile` and `json.Unmarshal`. These are the
  fields of `Env`. Each of them may answer differently at every call, so each
  one receives the effects performed so far.
* Every command handed to an executor and every file write is appended to a
  trace (`Effect`), labelled with the Go function that performed it.
* A run-time panic (index out of range, slice bounds out of range, assignment
  to an entry of a nil map) is the value `none` in the `ret` field of `Run`.
* The one operation that can turn a text into bytes that are not UTF-8 is the
  slice `container.ID[:12]`; it is computed on bytes, and the case where it
  cuts a character is a separate outcome (`Slice.torn`, `Result.notText`).
* `range` over a Go map visits the keys in an order the language leaves open;
  the functions that range over a map take that order as an argument.
-/

namespace OsDiff

/-! ## Library functions: `strings`, `path` -/

/-- Go `unicode.IsSpace`. -/
def isSpace (c : Char) : Bool :=
  let n := c.toNat
  n == 0x09 || n == 0x0A || n == 0x0B || n == 0x0C || n == 0x0D || n == 0x20 ||
  n == 0x85 || n == 0xA0 || n == 0x1680 || (0x2000 ≤ n && n ≤ 0x200A) ||
  n == 0x2028 || n == 0x2029 || n == 0x202F || n == 0x205F || n == 0x3000

/-- Go `strings.TrimSpace`: leading and trailing white space removed. -/
def TrimSpace (s : String) : String :=
  String.mk (((s.data.dropWhile isSpace).reverse.dropWhile isSpace).reverse)

/-- Go `strings.TrimRight s cutset`: trailing characters of `cutset` removed. -/
def TrimRight (s cutset : String) : String :=
  String.mk ((s.data.reverse.dropWhile (fun c => cutset.data.contains c)).reverse)

/-- Go `len` of a string: its number of bytes. -/
def len (s : String) : Nat := s.utf8ByteSize

/-- The first component of Go `path.Split`: everything up to and including the
last slash. -/
def splitDir (path : List Char) : List Char :=
  (path.reverse.dropWhile (fun c => c != '/')).reverse

/-- The `..` case of `path.Clean` when it can backtrack, on the reversed output
buffer: `out.w--`, then `out.w--` again as long as `out.w > dotdot` and the
byte at `out.w` (the one just dropped) is not a slash. -/
def cleanBacktrack (dotdot : Nat) : List Char → List Char
  | [] => []
  | c :: t => if dotdot < t.length ∧ c ≠ '/' then cleanBacktrack dotdot t else t

/-- The main loop of Go `path.Clean`. `rest` is `path[r:]`, `outRev` is the
output buffer reversed (so `out.w` is its length). Each turn consumes at least
one byte of `rest`; the first argument bounds the number of turns. -/
def cleanLoop (rooted : Bool) : Nat → List Char → List Char → Nat → List Char
  | 0, _, outRev, _ => outRev
  | fuel + 1, rest, outRev, dotdot =>
    match rest with
    | [] => outRev
    | c :: t =>
      if c = '/' then
        cleanLoop rooted fuel t outRev dotdot
      else if c = '.' ∧ (t = [] ∨ t.head? = some '/') then
        cleanLoop rooted fuel t outRev dotdot
      else if c = '.' ∧ t.head? = some '.' ∧ (t.tail = [] ∨ t.tail.head? = some '/') then
        if dotdot < outRev.length then
          cleanLoop rooted fuel t.tail (cleanBacktrack dotdot outRev) dotdot
        else if rooted = false then
          let o1 := if 0 < outRev.length then '/' :: outRev else outRev
          let o2 := '.' :: '.' :: o1
          cleanLoop rooted fuel t.tail o2 o2.length
        else
          cleanLoop rooted fuel t.tail outRev dotdot
      else
        let o1 :=
          if (rooted = true ∧ outRev.length ≠ 1) ∨ (rooted = false ∧ outRev.length ≠ 0)
          then '/' :: outRev else outRev
        let elem := rest.takeWhile (fun x => x != '/')
        cleanLoop rooted fuel (rest.dropWhile (fun x => x != '/')) (elem.reverse ++ o1) dotdot

/-- Go `path.Clean`. -/
def Clean (path : String) : String :=
  match path.data with
  | [] => "."
  | c :: t =>
    let out :=
      if c = '/' then cleanLoop true path.data.length t ['/'] 1
      else cleanLoop false path.data.length (c :: t) [] 0
    if out.length = 0 then "." else String.mk out.reverse

/-- Go `path.Dir`: `Split`, then `Clean` of the directory part. -/
def pathDir (path : String) : String :=
  Clean (String.mk (splitDir path.data))

/-- Source `getDir` (fetch.go:194). -/
def getDir (s : String) : String := pathDir s

/-! ## Data model (fetch.go:32-55) -/

/-- A Go `error` value; `none` is `nil`. -/
abbrev GoError := Option String

/-- Source `Service` (fetch.go:35). -/
structure Service where
  Enable : Bool
  PodmanId : String
  PodmanImage : String
  PodmanName : String
  PodName : String
  ContainerName : String
  StrictPodNameMatch : Bool
  Path : List String
deriving DecidableEq, Repr

/-- The zero value `Service{}`. -/
def Service.zero : Service := ⟨false, "", "", "", "", "", false, []⟩

/-- A Go map with string keys. `nil` is the nil map (the zero value of a map
type); `make` holds the entries of an allocated map, the first entry of a key
being the live one. -/
inductive GoMap (ν : Type) where
  | nil : GoMap ν
  | make (entries : List (String × ν)) : GoMap ν
deriving DecidableEq, Repr

/-- The entries of a map; a nil map has none. -/
def GoMap.entries {ν : Type} : GoMap ν → List (String × ν)
  | .nil => []
  | .make es => es

/-- The read `v, ok := m[k]`; reading a nil map is allowed and finds nothing. -/
def GoMap.get {ν : Type} (m : GoMap ν) (k : String) : Option ν :=
  (m.entries.find? (fun e => e.1 = k)).map (fun e => e.2)

/-- The write `m[k] = v`; `none` is the panic
"assignment to entry in nil map". -/
def GoMap.set {ν : Type} (m : GoMap ν) (k : String) (v : ν) : Option (GoMap ν) :=
  match m with
  | .nil => none
  | .make es => some (.make ((k, v) :: es.filter (fun e => e.1 ≠ k)))

/-- The list `ks` is an order in which `range m` may visit the keys of `m`:
every key, once. -/
def GoMap.RangeOrder {ν : Type} (m : GoMap ν) (ks : List String) : Prop :=
  ks.Nodup ∧ ∀ k, k ∈ ks ↔ (m.get k).isSome = true

/-- Source `Config` (fetch.go:46). -/
structure Config where
  Services : GoMap Service
deriving DecidableEq, Repr

/-- The read `config.Services[serviceName]`: the zero `Service` when the key is
absent. -/
def Config.service (config : Config) (serviceName : String) : Service :=
  (config.Services.get serviceName).getD Service.zero

/-- Source `PodmanContainer` (fetch.go:51). -/
structure PodmanContainer where
  Image : String
  ID : String
  Names : List String
deriving DecidableEq, Repr

/-! ## Effects and environment -/

/-- The functions of the package that hand a command to an executor. -/
inductive Caller where
  | GetPodmanIds | GetPodmanId | GetPodId | PullPodmanFiles | PullPodFiles
  | SyncConfigDir | CleanUp | CreateServiceTree
deriving DecidableEq, Repr

/-- What the package does to the outside world: run a shell command, or write
a file. -/
inductive Effect where
  | exec (caller : Caller) (cmd : String) : Effect
  | write (path : String) (data : String) : Effect
deriving DecidableEq, Repr

/-- Effects in the order they were performed. -/
abbrev Trace := List Effect

/-- The effect is a command issued by one of the two copy functions. -/
def Effect.isCopy : Effect → Bool
  | .exec .PullPodmanFiles _ => true
  | .exec .PullPodFiles _ => true
  | _ => false

/-- The effect is a command issued by one of the two id-lookup functions. -/
def Effect.isLookup : Effect → Bool
  | .exec .GetPodmanId _ => true
  | .exec .GetPodId _ => true
  | _ => false

/-- The effect is a removal command (issued by `CleanUp`). -/
def Effect.isRemoval : Effect → Bool
  | .exec .CleanUp _ => true
  | _ => false

/-- The effect is a file write. -/
def Effect.isWrite : Effect → Bool
  | .write _ _ => true
  | _ => false

/-- The collaborators of the package, none of which is defined in `fetch.go`.
Every one of them is given the trace so far, so its answer may change from one
call to the next.

* `ExecCmd` is `common.ExecCmd`: the output lines and the error;
* `ExecCmdSimple` is `common.ExecCmdSimple`: the output and the error;
* `Output` is `exec.Command("bash", "-c", cmd).Output()`;
* `Unmarshal` is `json.Unmarshal` into a `[]PodmanContainer`;
* `Decode` is `os.Open` of the path followed by the YAML `Decode(&config)`:
  the error and the value of `config` afterwards;
* `Marshal` is `yaml.Marshal(&config)`;
* `WriteFile` is `os.WriteFile(path, data, 0644)`. -/
structure Env where
  ExecCmd : Trace → String → List String × GoError
  ExecCmdSimple : Trace → String → String × GoError
  Output : Trace → String → String × GoError
  Unmarshal : String → Except String (List PodmanContainer)
  Decode : Trace → String → Config → GoError × Config
  Marshal : Config → Except String String
  WriteFile : Trace → String → String → GoError

/-- The outcome of a call: the trace when it ends, and what it returned;
`ret = none` when the call panicked. -/
structure Run (α : Type) where
  trace : Trace
  ret : Option α
deriving DecidableEq, Repr

/-! ## The package functions -/

/-- Source `LoadServiceConfig` (fetch.go:57): the error, and the package
variable `config` afterwards. -/
def LoadServiceConfig (env : Env) (configPath : String) (config : Config) (tr : Trace) :
    GoError × Config :=
  env.Decode tr configPath config

/-- Source `dumpConfigFile` (fetch.go:74). -/
def dumpConfigFile (env : Env) (config : Config) (configPath : String) (tr : Trace) :
    Run GoError :=
  match env.Marshal config with
  | .error err => ⟨tr, some (some err)⟩
  | .ok yamlData =>
    ⟨tr ++ [Effect.write configPath yamlData], some (env.WriteFile tr configPath yamlData)⟩

/-- Source `GetPodmanIds` (fetch.go:124). -/
def GetPodmanIds (env : Env) (sshCmd : String) (all : Bool) (tr : Trace) :
    Run (String × GoError) :=
  let cmd :=
    if all then sshCmd ++ " podman ps -a --format json"
    else sshCmd ++ " podman ps --format json"
  ⟨tr ++ [Effect.exec .GetPodmanIds cmd], some (env.Output tr cmd)⟩

/-- Source `GetPodmanId` (fetch.go:135). `output[0]` panics when the executor
returned no line at all. -/
def GetPodmanId (env : Env) (containerName sshCmd : String) (tr : Trace) :
    Run (String × GoError) :=
  let cmd := sshCmd ++ " podman ps -a | awk '/" ++ containerName ++ "$/  \x7bprint $1\x7d'"
  let r := env.ExecCmd tr cmd
  match r.1 with
  | [] => ⟨tr ++ [Effect.exec .GetPodmanId cmd], none⟩
  | o :: _ => ⟨tr ++ [Effect.exec .GetPodmanId cmd], some (o, r.2)⟩

/-- Source `GetPodId` (fetch.go:141). -/
def GetPodId (env : Env) (podName : String) (tr : Trace) : Run (String × GoError) :=
  let cmd := "oc get pods --field-selector status.phase=Running | awk '/" ++ podName ++
    "-[a-f0-9-]/ \x7bprint $1\x7d'"
  let r := env.ExecCmd tr cmd
  match r.1 with
  | [] => ⟨tr ++ [Effect.exec .GetPodId cmd], none⟩
  | o :: _ => ⟨tr ++ [Effect.exec .GetPodId cmd], some (o, r.2)⟩

/-- Source `PullPodmanFiles` (fetch.go:147); the executor's answer is dropped. -/
def PullPodmanFiles (podmanId remotePath localPath sshCmd : String) (tr : Trace) :
    Run GoError :=
  let cmd := sshCmd ++ " podman cp " ++ podmanId ++ ":" ++ remotePath ++ " " ++ localPath
  ⟨tr ++ [Effect.exec .PullPodmanFiles cmd], some none⟩

/-- Source `PullPodFiles` (fetch.go:153); the executor's answer is dropped. -/
def PullPodFiles (podId containerName remotePath localPath : String) (tr : Trace) :
    Run GoError :=
  let cmd := "oc cp -c " ++ containerName ++ " " ++ podId ++ ":" ++ remotePath ++ " " ++ localPath
  ⟨tr ++ [Effect.exec .PullPodFiles cmd], some none⟩

/-- Source `SyncConfigDir` (fetch.go:160); the executor's answer is dropped. -/
def SyncConfigDir (localPath remotePath sshCmd : String) (tr : Trace) : Run GoError :=
  let cmd := "rsync -a -e '" ++ sshCmd ++ "' :" ++ remotePath ++ " " ++ localPath
  ⟨tr ++ [Effect.exec .SyncConfigDir cmd], some none⟩

/-- Source `CleanUp` (fetch.go:166). -/
def CleanUp (remotePath sshCmd : String) (tr : Trace) : Run GoError :=
  if remotePath = "" ∨ remotePath = "/" then
    ⟨tr, some (some ("Clean up Error - Empty or wrong path: " ++ remotePath ++
      ". Please make sure you provided a correct path."))⟩
  else
    let cmd := sshCmd ++ " rm -rf " ++ remotePath
    ⟨tr ++ [Effect.exec .CleanUp cmd], some none⟩

/-- Source `CreateServiceTree` (fetch.go:187). -/
def CreateServiceTree (env : Env) (serviceName path configDir sshCmd : String) (tr : Trace) :
    Run (String × GoError) :=
  let fullPath := configDir ++ "/" ++ serviceName ++ "/" ++ getDir path
  let cmd := sshCmd ++ " mkdir -p " ++ fullPath
  ⟨tr ++ [Effect.exec .CreateServiceTree cmd], some (env.ExecCmdSimple tr cmd)⟩

/-- The loop of `PullConfig` over the paths in podman mode (fetch.go:104-107). -/
def PullConfig.podmanPaths (podmanId serviceName configDir sshCmd : String) :
    List String → Trace → Trace
  | [], tr => tr
  | path :: rest, tr =>
    let dirPath := getDir (TrimRight path "/")
    let r := PullPodmanFiles podmanId path (configDir ++ "/" ++ serviceName ++ "/" ++ dirPath)
      sshCmd tr
    PullConfig.podmanPaths podmanId serviceName configDir sshCmd rest r.trace

/-- The loop of `PullConfig` over the paths in orchestrator mode
(fetch.go:114-116). -/
def PullConfig.podPaths (podId containerName serviceName configDir : String) :
    List String → Trace → Trace
  | [], tr => tr
  | path :: rest, tr =>
    let r := PullPodFiles podId containerName path (configDir ++ "/" ++ serviceName ++ "/" ++ path)
      tr
    PullConfig.podPaths podId containerName serviceName configDir rest r.trace

/-- The identifier `PullConfig` goes on to test: in podman mode the service's
`PodmanId` when it is set and the answer of `GetPodmanId` otherwise
(fetch.go:97-102), in orchestrator mode the answer of `GetPodId`
(fetch.go:112). The error of the lookup is dropped. -/
def PullConfig.identifier (env : Env) (config : Config) (serviceName : String) (podman : Bool)
    (sshCmd : String) (tr : Trace) : Run String :=
  if podman then
    if (config.service serviceName).PodmanId ≠ "" then
      ⟨tr, some (config.service serviceName).PodmanId⟩
    else
      let g := GetPodmanId env (config.service serviceName).PodmanName sshCmd tr
      ⟨g.trace, g.ret.map (fun p => p.1)⟩
  else
    let g := GetPodId env (config.service serviceName).PodName tr
    ⟨g.trace, g.ret.map (fun p => p.1)⟩

/-- Source `PullConfig` (fetch.go:95). -/
def PullConfig (env : Env) (config : Config) (serviceName : String) (podman : Bool)
    (configDir sshCmd : String) (tr : Trace) : Run GoError :=
  if podman then
    let r := PullConfig.identifier env config serviceName true sshCmd tr
    match r.ret with
    | none => ⟨r.trace, none⟩
    | some podmanId =>
      if len (TrimSpace podmanId) > 0 then
        ⟨PullConfig.podmanPaths podmanId serviceName configDir sshCmd
          (config.service serviceName).Path r.trace, some none⟩
      else
        ⟨r.trace, some none⟩
  else
    let r := PullConfig.identifier env config serviceName false sshCmd tr
    match r.ret with
    | none => ⟨r.trace, none⟩
    | some podId =>
      if len (TrimSpace podId) > 0 then
        ⟨PullConfig.podPaths podId (config.service serviceName).ContainerName serviceName
          configDir (config.service serviceName).Path r.trace, some none⟩
      else
        ⟨r.trace, some none⟩

/-- Source `PullConfigs` (fetch.go:88); the list is the order in which
`range config.Services` visits the services. -/
def PullConfigs (env : Env) (config : Config) (configDir : String) (podman : Bool)
    (sshCmd : String) : List String → Trace → Run GoError
  | [], tr => ⟨tr, some none⟩
  | service :: rest, tr =>
    let r := PullConfig env config service podman configDir sshCmd tr
    match r.ret with
    | none => ⟨r.trace, none⟩
    | some _ => PullConfigs env config configDir podman sshCmd rest r.trace

/-- The inner loop of `CreateServicesTrees` (fetch.go:177-182), over the paths
of one service. The value is `some none` when the loop ran to its end and
`some (some (output, err))` when it returned early. -/
def CreateServicesTrees.paths (env : Env) (service configDir sshCmd : String) :
    List String → Trace → Run (Option (String × GoError))
  | [], tr => ⟨tr, some none⟩
  | path :: rest, tr =>
    let r := CreateServiceTree env service path configDir sshCmd tr
    match r.ret with
    | none => ⟨r.trace, none⟩
    | some (output, some err) => ⟨r.trace, some (some (output, some err))⟩
    | some (_, none) => CreateServicesTrees.paths env service configDir sshCmd rest r.trace

/-- Source `CreateServicesTrees` (fetch.go:175); the list is the order in which
`range config.Services` visits the services. -/
def CreateServicesTrees (env : Env) (config : Config) (configDir sshCmd : String) :
    List String → Trace → Run (String × GoError)
  | [], tr => ⟨tr, some ("", none)⟩
  | service :: rest, tr =>
    let r := CreateServicesTrees.paths env service configDir sshCmd
      (config.service service).Path tr
    match r.ret with
    | none => ⟨r.trace, none⟩
    | some (some res) => ⟨r.trace, some res⟩
    | some none => CreateServicesTrees env config configDir sshCmd rest r.trace

/-- Source `FetchConfigFromEnv` (fetch.go:198). `config0` is the package
variable `config` when the call starts; `ks1` and `ks2` are the orders in which
the `range` of `CreateServicesTrees` and the `range` of `PullConfigs` visit the
services. -/
def FetchConfigFromEnv (env : Env) (config0 : Config) (ks1 ks2 : List String)
    (configPath localDir remoteDir : String) (podman : Bool) (connection sshCmd : String)
    (tr : Trace) : Run GoError :=
  let ld := LoadServiceConfig env configPath config0 tr
  match ld.1 with
  | some err => ⟨tr, some (some err)⟩
  | none =>
    if connection = "local" then
      let c := CreateServicesTrees env ld.2 localDir sshCmd ks1 tr
      match c.ret with
      | none => ⟨c.trace, none⟩
      | some (_, some err) => ⟨c.trace, some (some err)⟩
      | some (_, none) =>
        let p := PullConfigs env ld.2 localDir podman sshCmd ks2 c.trace
        match p.ret with
        | none => ⟨p.trace, none⟩
        | some _ => ⟨p.trace, some none⟩
    else
      let c := CreateServicesTrees env ld.2 remoteDir sshCmd ks1 tr
      match c.ret with
      | none => ⟨c.trace, none⟩
      | some (_, some err) => ⟨c.trace, some (some err)⟩
      | some (_, none) =>
        let p := PullConfigs env ld.2 remoteDir podman sshCmd ks2 c.trace
        match p.ret with
        | none => ⟨p.trace, none⟩
        | some _ =>
          let s := SyncConfigDir localDir remoteDir sshCmd p.trace
          let cl := CleanUp remoteDir sshCmd s.trace
          match cl.ret with
          | none => ⟨cl.trace, none⟩
          | some _ => ⟨cl.trace, some none⟩

/-- The outcome of slicing a text at a byte position: the position lies beyond
the text (a panic in Go), or it falls inside a character (the bytes kept are
then not UTF-8 text and no `String` stands for them), or the bytes kept are the
text `s`. -/
inductive Slice where
  | outOfRange : Slice
  | torn : Slice
  | text (s : String) : Slice
deriving DecidableEq, Repr

/-- Put a character in front of the text of a slice. -/
def Slice.push (c : Char) : Slice → Slice
  | .text s => .text (String.mk (c :: s.data))
  | .outOfRange => .outOfRange
  | .torn => .torn

/-- The first `n` bytes of the text `cs`: its characters are taken as long as
their UTF-8 encodings fit in the `n` bytes. -/
def takeBytes : List Char → Nat → Slice
  | [], n => if n = 0 then .text "" else .outOfRange
  | c :: cs, n =>
    if n = 0 then .text ""
    else if c.utf8Size ≤ n then (takeBytes cs (n - c.utf8Size)).push c
    else .torn

/-- The slice `s[:12]` (fetch.go:249): out of range when `s` has fewer than 12
bytes, otherwise the first 12 bytes of `s`. -/
def sliceTo12 (s : String) : Slice :=
  if len s < 12 then .outOfRange else takeBytes s.data 12

/-- How a computation that performs no effect ends: with a panic, with a byte
string that is not UTF-8 text (which the strings of this development cannot
hold), or with a value. -/
inductive Result (α : Type) where
  | panic : Result α
  | notText : Result α
  | ok (a : α) : Result α
deriving DecidableEq, Repr

/-- The set of filters of `buildPodmanInfo` (fetch.go:234-237), as the entries
of the map `filterMap`. -/
def buildPodmanInfo.filterMap : List String → List (String × Unit) → List (String × Unit)
  | [], es => es
  | filter :: rest, es =>
    buildPodmanInfo.filterMap rest ((filter, ()) :: es.filter (fun e => e.1 ≠ filter))

/-- The loop of `buildPodmanInfo` over the names of one container
(fetch.go:246-253). -/
def buildPodmanInfo.names (filterMap : GoMap Unit) (container : PodmanContainer) :
    List String → GoMap (GoMap String) → Result (GoMap (GoMap String))
  | [], data => .ok data
  | name :: rest, data =>
    if (filterMap.get name).isSome then
      match sliceTo12 container.ID with
      | .outOfRange => .panic
      | .torn => .notText
      | .text id =>
        match data.set name (.make [("containerid", id), ("image", container.Image)]) with
        | none => .panic
        | some data2 => buildPodmanInfo.names filterMap container rest data2
    else
      buildPodmanInfo.names filterMap container rest data

/-- The loop of `buildPodmanInfo` over the containers (fetch.go:245-254). -/
def buildPodmanInfo.containers (filterMap : GoMap Unit) :
    List PodmanContainer → GoMap (GoMap String) → Result (GoMap (GoMap String))
  | [], data => .ok data
  | container :: rest, data =>
    match buildPodmanInfo.names filterMap container container.Names data with
    | .panic => .panic
    | .notText => .notText
    | .ok data2 => buildPodmanInfo.containers filterMap rest data2

/-- Source `buildPodmanInfo` (fetch.go:233): a panic, or an id cut inside a
character, or the map and the error returned. -/
def buildPodmanInfo (env : Env) (output : String) (filters : List String) :
    Result (GoMap (GoMap String) × GoError) :=
  let filterMap : GoMap Unit := .make (buildPodmanInfo.filterMap filters [])
  match env.Unmarshal output with
  | .error err => .ok (.nil, some err)
  | .ok containers =>
    match buildPodmanInfo.containers filterMap containers (.make []) with
    | .panic => .panic
    | .notText => .notText
    | .ok data => .ok (data, none)

/-- The update loop of `SetTripleODataEnv` (fetch.go:271-281); the list is the
order in which `range data` visits the names. `none` is a panic. -/
def SetTripleODataEnv.update (data : GoMap (GoMap String)) : List String → Config → Option Config
  | [], config => some config
  | name :: rest, config =>
    let info := (data.get name).getD .nil
    let created :=
      if (config.Services.get name).isSome then some config.Services
      else config.Services.set name Service.zero
    match created with
    | none => none
    | some services =>
      match services.get name with
      | some entry =>
        let entry2 : Service :=
          ⟨entry.Enable, (info.get "containerid").getD "", (info.get "image").getD "", name,
            entry.PodName, entry.ContainerName, entry.StrictPodNameMatch, entry.Path⟩
        match services.set name entry2 with
        | none => none
        | some services2 => SetTripleODataEnv.update data rest ⟨services2⟩
      | none => SetTripleODataEnv.update data rest ⟨services⟩

/-- Source `SetTripleODataEnv` (fetch.go:258). `config0` is the package variable
`config` when the call starts; `ks` is the order in which `range data` visits
the discovered names. The value is `none` when `buildPodmanInfo` cuts an id
inside a character: the code then goes on with a podman id that is not UTF-8
text, which no `String` can hold. -/
def SetTripleODataEnv (env : Env) (config0 : Config) (ks : List String)
    (configPath sshCmd : String) (filters : List String) (all : Bool) (tr : Trace) :
    Option (Run GoError) :=
  let g := GetPodmanIds env sshCmd all tr
  match g.ret with
  | none => some ⟨g.trace, none⟩
  | some (_, some err) => some ⟨g.trace, some (some err)⟩
  | some (output, none) =>
    match buildPodmanInfo env output filters with
    | .panic => some ⟨g.trace, none⟩
    | .notText => none
    | .ok (data, _) =>
      let ld := LoadServiceConfig env configPath config0 g.trace
      match ld.1 with
      | some err => some ⟨g.trace, some (some err)⟩
      | none =>
        match SetTripleODataEnv.update data ks ld.2 with
        | none => some ⟨g.trace, none⟩
        | some config => some (dumpConfigFile env config configPath g.trace)

/-! ## Concrete environments and inputs -/

/-- An environment that always gives the same answers: `lines` to every
`ExecCmd`, success to every `ExecCmdSimple`, `listing` to every `Output`,
`records` to every `Unmarshal`, the manifest `manifest` to every `Decode`;
`Marshal` and `WriteFile` succeed. -/
def stubEnv (lines : List String) (listing : String)
    (records : Except String (List PodmanContainer)) (manifest : Config) : Env :=
  ⟨fun _ _ => (lines, none), fun _ _ => ("", none), fun _ _ => (listing, none),
    fun _ => records, fun _ _ _ => (none, manifest), fun _ => .ok "services: ...",
    fun _ _ _ => none⟩

/-- The manifest of the scenario: one service `httpd`, podman id `abc123`, one
path. -/
def httpdManifest : Config :=
  ⟨.make [("httpd", ⟨true, "abc123", "", "", "", "", false, ["/etc/httpd/conf"]⟩)]⟩

/-- A manifest with one service `db` that has no path. -/
def emptyPathManifest : Config :=
  ⟨.make [("db", ⟨true, "", "", "db", "db", "db", false, []⟩)]⟩

/-- A listing of one container whose id has three bytes. -/
def shortIdRecords : List PodmanContainer := [⟨"img", "abc", ["a"]⟩]

/-- A listing of three containers, named `a`, `b` and `c`. -/
def abcRecords : List PodmanContainer :=
  [⟨"img-a", "aaaaaaaaaaaaaaaa", ["a"]⟩, ⟨"img-b", "bbbbbbbbbbbbbbbb", ["b"]⟩,
    ⟨"img-c", "cccccccccccccccc", ["c"]⟩]

/-- Discovered data for the single name `a`. -/
def dataA : GoMap (GoMap String) :=
  .make [("a", .make [("containerid", "aaaaaaaaaaaa"), ("image", "img-a")])]

/-- A manifest with one service `b`, every field of which is set. -/
def bManifest : Config :=
  ⟨.make [("b", ⟨true, "bbbbbbbbbbbb", "img-b", "b", "b-pod", "b-ctr", true, ["/etc/b"]⟩)]⟩

/-- A manifest with one service `web` that has a path and no preset podman
id. -/
def webManifest : Config :=
  ⟨.make [("web", ⟨true, "", "", "web", "web", "web", false, ["/etc/web/web.conf"]⟩)]⟩

/-- A listing of one container whose id has seven characters of two bytes
each. -/
def wideIdRecords : List PodmanContainer := [⟨"img", "ééééééé", ["a"]⟩]

/-- A listing of one container whose id has one character of one byte and six
of two bytes each: byte 12 falls inside the last character. -/
def tornIdRecords : List PodmanContainer := [⟨"img", "aéééééé", ["a"]⟩]

/-! # Properties -/

/-! ## Strings -/

theorem TrimSpace_blank (s : String) (h : ∀ c ∈ s.data, isSpace c = true) : TrimSpace s = "" := by
  have h1 : s.data.dropWhile isSpace = [] := by
    rw [List.dropWhile_eq_nil_iff]
    exact h
  simp [TrimSpace, h1]

theorem len_empty : len "" = 0 := by decide

/-- The bound on the turns of `cleanLoop` is never reached: a bound of at least
the number of bytes left gives the same result as any larger one, so `Clean`
(which starts with the length of the path) is the function Go computes. -/
theorem cleanLoop_fuel (rooted : Bool) (n : Nat) :
    ∀ (rest outRev : List Char) (dotdot m : Nat), rest.length ≤ n → n ≤ m →
      cleanLoop rooted m rest outRev dotdot = cleanLoop rooted n rest outRev dotdot := by
  induction n with
  | zero =>
    intro rest outRev dotdot m h _
    have hr : rest = [] := List.length_eq_zero.mp (Nat.le_zero.mp h)
    subst hr
    cases m <;> simp [cleanLoop]
  | succ n ih =>
    intro rest outRev dotdot m h hm
    obtain ⟨k, rfl⟩ : ∃ k, m = k + 1 := ⟨m - 1, by omega⟩
    have hk : n ≤ k := by omega
    cases rest with
    | nil => simp [cleanLoop]
    | cons c t =>
      have ht : t.length ≤ n := by simpa using h
      have htt : t.tail.length ≤ n := by
        simp only [List.length_tail]
        omega
      rw [cleanLoop, cleanLoop]
      by_cases hc : c = '/'
      · simp only [hc, if_true]
        exact ih _ _ _ _ ht hk
      · have hd : (c :: t).dropWhile (fun x => x != '/') = t.dropWhile (fun x => x != '/') := by
          simp [List.dropWhile_cons, hc]
        have hdl : ((c :: t).dropWhile (fun x => x != '/')).length ≤ n := by
          rw [hd]
          exact le_trans (List.dropWhile_sublist _).length_le ht
        simp only [hc, if_false]
        split_ifs
        all_goals first
          | exact ih _ _ _ _ ht hk
          | exact ih _ _ _ _ htt hk
          | exact ih _ _ _ _ hdl hk

/-! ## `CleanUp` -/

/-- C1. `CleanUp` returns an error exactly when the path is empty or the root;
in that case the trace is unchanged (no command is issued); in every other
case it issues the single command `sshCmd ++ " rm -rf " ++ remotePath` and
returns nil. -/
theorem CleanUp_refuses_exactly_empty_and_root (remotePath sshCmd : String) (tr : Trace) :
    ((∃ err, (CleanUp remotePath sshCmd tr).ret = some (some err)) ↔
        (remotePath = "" ∨ remotePath = "/")) ∧
      ((remotePath = "" ∨ remotePath = "/") → (CleanUp remotePath sshCmd tr).trace = tr) ∧
      (¬ (remotePath = "" ∨ remotePath = "/") →
        CleanUp remotePath sshCmd tr =
          ⟨tr ++ [Effect.exec Caller.CleanUp (sshCmd ++ " rm -rf " ++ remotePath)], some none⟩) := by
  by_cases h : remotePath = "" ∨ remotePath = "/"
  · simp [CleanUp, h]
  · simp [CleanUp, h]

/-! ## `GetPodmanId`, `GetPodId` -/

theorem GetPodmanId_trace (env : Env) (containerName sshCmd : String) (tr : Trace) :
    (GetPodmanId env containerName sshCmd tr).trace =
      tr ++ [Effect.exec Caller.GetPodmanId
        (sshCmd ++ " podman ps -a | awk '/" ++ containerName ++ "$/  \x7bprint $1\x7d'")] := by
  unfold GetPodmanId
  dsimp only
  split <;> rfl

theorem GetPodId_trace (env : Env) (podName : String) (tr : Trace) :
    (GetPodId env podName tr).trace =
      tr ++ [Effect.exec Caller.GetPodId
        ("oc get pods --field-selector status.phase=Running | awk '/" ++ podName ++
          "-[a-f0-9-]/ \x7bprint $1\x7d'")] := by
  unfold GetPodId
  dsimp only
  split <;> rfl

theorem GetPodmanId_returns (env : Env) (containerName sshCmd : String) (tr : Trace)
    (h : ∀ t c, (env.ExecCmd t c).1 ≠ []) :
    ∃ p, (GetPodmanId env containerName sshCmd tr).ret = some p := by
  unfold GetPodmanId
  dsimp only
  split
  · rename_i heq
    exact absurd heq (h _ _)
  · exact ⟨_, rfl⟩

theorem GetPodId_returns (env : Env) (podName : String) (tr : Trace)
    (h : ∀ t c, (env.ExecCmd t c).1 ≠ []) :
    ∃ p, (GetPodId env podName tr).ret = some p := by
  unfold GetPodId
  dsimp only
  split
  · rename_i heq
    exact absurd heq (h _ _)
  · exact ⟨_, rfl⟩

/-- C7, as amended. `GetPodmanId` issues exactly one command, and it is
`sshCmd ++ " podman ps -a | awk '/" ++ containerName ++ "$/  {print $1}'"`,
with two blanks between the pattern and the action. -/
theorem GetPodmanId_issues_one_command (env : Env) (containerName sshCmd : String)
    (tr : Trace) :
    (GetPodmanId env containerName sshCmd tr).trace =
      tr ++ [Effect.exec Caller.GetPodmanId
        (sshCmd ++ " podman ps -a | awk '/" ++ containerName ++ "$/  \x7bprint $1\x7d'")] :=
  GetPodmanId_trace env containerName sshCmd tr

/-- C7, counterexample. For the container `web` and the prefix `ssh host`, the
command issued is not the one of the claim, which has a single blank before
the action. -/
theorem GetPodmanId_single_blank_refuted :
    (GetPodmanId (stubEnv [""] "" (.ok []) httpdManifest) "web" "ssh host" []).trace ≠
      [Effect.exec Caller.GetPodmanId
        ("ssh host" ++ " podman ps -a | awk '/" ++ "web" ++ "$/ \x7bprint $1\x7d'")] := by
  decide

/-! ## `PullConfig` -/

theorem podmanPaths_eq (podmanId serviceName configDir sshCmd : String) (ps : List String)
    (tr : Trace) :
    PullConfig.podmanPaths podmanId serviceName configDir sshCmd ps tr =
      tr ++ ps.map (fun path => Effect.exec Caller.PullPodmanFiles
        (sshCmd ++ " podman cp " ++ podmanId ++ ":" ++ path ++ " " ++
          (configDir ++ "/" ++ serviceName ++ "/" ++ getDir (TrimRight path "/")))) := by
  induction ps generalizing tr with
  | nil => simp [PullConfig.podmanPaths]
  | cons p ps ih => simp [PullConfig.podmanPaths, PullPodmanFiles, ih]

theorem podPaths_eq (podId containerName serviceName configDir : String) (ps : List String)
    (tr : Trace) :
    PullConfig.podPaths podId containerName serviceName configDir ps tr =
      tr ++ ps.map (fun path => Effect.exec Caller.PullPodFiles
        ("oc cp -c " ++ containerName ++ " " ++ podId ++ ":" ++ path ++ " " ++
          (configDir ++ "/" ++ serviceName ++ "/" ++ path))) := by
  induction ps generalizing tr with
  | nil => simp [PullConfig.podPaths]
  | cons p ps ih => simp [PullConfig.podPaths, PullPodFiles, ih]

/-- The identifier is found with at most one command, an id lookup. -/
theorem identifier_trace (env : Env) (config : Config) (serviceName : String) (podman : Bool)
    (sshCmd : String) (tr : Trace) :
    ∃ d, (PullConfig.identifier env config serviceName podman sshCmd tr).trace = tr ++ d ∧
      d.length ≤ 1 ∧ ∀ e ∈ d, e.isLookup = true := by
  unfold PullConfig.identifier
  cases podman with
  | true =>
    by_cases h : (config.service serviceName).PodmanId = ""
    · refine ⟨[Effect.exec Caller.GetPodmanId (sshCmd ++ " podman ps -a | awk '/" ++
        (config.service serviceName).PodmanName ++ "$/  \x7bprint $1\x7d'")], ?_, ?_, ?_⟩
      · simp only [h, ne_eq, not_true_eq_false, if_false, if_true]
        exact GetPodmanId_trace _ _ _ _
      · simp
      · simp [Effect.isLookup]
    · exact ⟨[], by simp [h], by simp, by simp⟩
  | false =>
    refine ⟨[Effect.exec Caller.GetPodId
      ("oc get pods --field-selector status.phase=Running | awk '/" ++
        (config.service serviceName).PodName ++ "-[a-f0-9-]/ \x7bprint $1\x7d'")], ?_, ?_, ?_⟩
    · simp only [Bool.false_eq_true, if_false]
      exact GetPodId_trace _ _ _
    · simp
    · simp [Effect.isLookup]

theorem identifier_returns (env : Env) (config : Config) (serviceName : String) (podman : Bool)
    (sshCmd : String) (tr : Trace) (h : ∀ t c, (env.ExecCmd t c).1 ≠ []) :
    ∃ id, (PullConfig.identifier env config serviceName podman sshCmd tr).ret = some id := by
  unfold PullConfig.identifier
  cases podman with
  | true =>
    by_cases hp : (config.service serviceName).PodmanId = ""
    · obtain ⟨p, hp2⟩ := GetPodmanId_returns env (config.service serviceName).PodmanName sshCmd tr h
      exact ⟨p.1, by simp [hp, hp2]⟩
    · exact ⟨(config.service serviceName).PodmanId, by simp [hp]⟩
  | false =>
    obtain ⟨p, hp2⟩ := GetPodId_returns env (config.service serviceName).PodName tr h
    exact ⟨p.1, by simp [hp2]⟩

/-- What `PullConfig` does once the identifier is known. -/
theorem PullConfig_of_identifier (env : Env) (config : Config) (serviceName : String)
    (podman : Bool) (configDir sshCmd : String) (tr : Trace) (id : String)
    (hid : (PullConfig.identifier env config serviceName podman sshCmd tr).ret = some id) :
    PullConfig env config serviceName podman configDir sshCmd tr =
      if len (TrimSpace id) > 0 then
        ⟨(PullConfig.identifier env config serviceName podman sshCmd tr).trace ++
          (if podman then
            (config.service serviceName).Path.map (fun path => Effect.exec Caller.PullPodmanFiles
              (sshCmd ++ " podman cp " ++ id ++ ":" ++ path ++ " " ++
                (configDir ++ "/" ++ serviceName ++ "/" ++ getDir (TrimRight path "/"))))
          else
            (config.service serviceName).Path.map (fun path => Effect.exec Caller.PullPodFiles
              ("oc cp -c " ++ (config.service serviceName).ContainerName ++ " " ++ id ++ ":" ++
                path ++ " " ++ (configDir ++ "/" ++ serviceName ++ "/" ++ path)))),
          some none⟩
      else ⟨(PullConfig.identifier env config serviceName podman sshCmd tr).trace, some none⟩ := by
  unfold PullConfig
  cases podman with
  | true =>
    simp only [if_true, hid]
    split <;> simp [podmanPaths_eq]
  | false =>
    simp only [Bool.false_eq_true, if_false, hid]
    split <;> simp [podPaths_eq]

theorem PullConfig_of_panic (env : Env) (config : Config) (serviceName : String)
    (podman : Bool) (configDir sshCmd : String) (tr : Trace)
    (hid : (PullConfig.identifier env config serviceName podman sshCmd tr).ret = none) :
    PullConfig env config serviceName podman configDir sshCmd tr =
      ⟨(PullConfig.identifier env config serviceName podman sshCmd tr).trace, none⟩ := by
  unfold PullConfig
  cases podman with
  | true => simp only [if_true, hid]
  | false => simp only [Bool.false_eq_true, if_false, hid]

/-- The commands of `PullConfig` are id lookups and copies. -/
theorem PullConfig_trace (env : Env) (config : Config) (serviceName : String)
    (podman : Bool) (configDir sshCmd : String) (tr : Trace) :
    ∃ d, (PullConfig env config serviceName podman configDir sshCmd tr).trace = tr ++ d ∧
      ∀ e ∈ d, e.isLookup = true ∨ e.isCopy = true := by
  obtain ⟨d, hd, -, hl⟩ := identifier_trace env config serviceName podman sshCmd tr
  cases hid : (PullConfig.identifier env config serviceName podman sshCmd tr).ret with
  | none =>
    rw [PullConfig_of_panic env config serviceName podman configDir sshCmd tr hid]
    exact ⟨d, hd, fun e he => Or.inl (hl e he)⟩
  | some id =>
    rw [PullConfig_of_identifier env config serviceName podman configDir sshCmd tr id hid]
    split
    · refine ⟨d ++ _, by rw [hd, List.append_assoc], ?_⟩
      intro e he
      rcases List.mem_append.mp he with h | h
      · exact Or.inl (hl e h)
      · right
        cases podman with
        | true =>
          simp only [if_true, List.mem_map] at h
          obtain ⟨_, _, rfl⟩ := h
          rfl
        | false =>
          simp only [Bool.false_eq_true, if_false, List.mem_map] at h
          obtain ⟨_, _, rfl⟩ := h
          rfl
    · exact ⟨d, hd, fun e he => Or.inl (hl e he)⟩

theorem PullConfig_returns (env : Env) (config : Config) (serviceName : String)
    (podman : Bool) (configDir sshCmd : String) (tr : Trace)
    (h : ∀ t c, (env.ExecCmd t c).1 ≠ []) :
    (PullConfig env config serviceName podman configDir sshCmd tr).ret = some none := by
  obtain ⟨id, hid⟩ := identifier_returns env config serviceName podman sshCmd tr h
  rw [PullConfig_of_identifier env config serviceName podman configDir sshCmd tr id hid]
  split <;> rfl

/-- C4. When the identifier `PullConfig` uses (the preset podman id, or the
first line of the id lookup) is empty or made of white space only, `PullConfig`
stops after finding it: it returns nil and none of the commands it issued is a
copy. -/
theorem PullConfig_skips_blank_identifier (env : Env) (config : Config) (serviceName : String)
    (podman : Bool) (configDir sshCmd : String) (tr : Trace) (id : String)
    (hid : (PullConfig.identifier env config serviceName podman sshCmd tr).ret = some id)
    (hblank : ∀ c ∈ id.data, isSpace c = true) :
    (PullConfig env config serviceName podman configDir sshCmd tr).ret = some none ∧
      (PullConfig env config serviceName podman configDir sshCmd tr).trace =
        (PullConfig.identifier env config serviceName podman sshCmd tr).trace ∧
      ∃ d, (PullConfig env config serviceName podman configDir sshCmd tr).trace = tr ++ d ∧
        ∀ e ∈ d, e.isCopy = false := by
  obtain ⟨d, hd, -, hl⟩ := identifier_trace env config serviceName podman sshCmd tr
  rw [PullConfig_of_identifier env config serviceName podman configDir sshCmd tr id hid]
  simp only [TrimSpace_blank id hblank, len_empty, gt_iff_lt, lt_self_iff_false, if_false,
    true_and]
  refine ⟨d, hd, ?_⟩
  intro e he
  have := hl e he
  cases e with
  | exec c cmd => cases c <;> simp_all [Effect.isLookup, Effect.isCopy]
  | write p x => simp [Effect.isCopy]

/-- C4, witness: the service `web` has a path and no preset id, so in podman
mode its id is looked up, and the lookup answers a line of three blanks: the
lookup is the only command, and the copy of `/etc/web/web.conf` that a
non-blank answer would bring is not issued. -/
theorem PullConfig_skips_blank_identifier_witness :
    (webManifest.service "web").Path = ["/etc/web/web.conf"] ∧
      (PullConfig.identifier (stubEnv ["   "] "" (.ok []) webManifest) webManifest "web" true
        "ssh host" []).ret = some "   " ∧
      (∀ c ∈ ("   " : String).data, isSpace c = true) ∧
      (PullConfig (stubEnv ["   "] "" (.ok []) webManifest) webManifest "web" true "/cfg"
        "ssh host" []).ret = some none ∧
      (PullConfig (stubEnv ["   "] "" (.ok []) webManifest) webManifest "web" true "/cfg"
        "ssh host" []).trace =
        (PullConfig.identifier (stubEnv ["   "] "" (.ok []) webManifest) webManifest "web" true
          "ssh host" []).trace ∧
      (∃ d, (PullConfig (stubEnv ["   "] "" (.ok []) webManifest) webManifest "web" true "/cfg"
        "ssh host" []).trace = [] ++ d ∧ ∀ e ∈ d, e.isCopy = false) ∧
      (PullConfig (stubEnv ["web1"] "" (.ok []) webManifest) webManifest "web" true "/cfg"
        "ssh host" []).trace =
        [Effect.exec Caller.GetPodmanId "ssh host podman ps -a | awk '/web$/  \x7bprint $1\x7d'",
          Effect.exec Caller.PullPodmanFiles
            "ssh host podman cp web1:/etc/web/web.conf /cfg/web//etc/web"] :=
  ⟨by decide, by decide, by decide,
    (PullConfig_skips_blank_identifier (stubEnv ["   "] "" (.ok []) webManifest) webManifest
      "web" true "/cfg" "ssh host" [] "   " (by decide) (by decide)).1,
    (PullConfig_skips_blank_identifier (stubEnv ["   "] "" (.ok []) webManifest) webManifest
      "web" true "/cfg" "ssh host" [] "   " (by decide) (by decide)).2.1,
    (PullConfig_skips_blank_identifier (stubEnv ["   "] "" (.ok []) webManifest) webManifest
      "web" true "/cfg" "ssh host" [] "   " (by decide) (by decide)).2.2,
    by decide⟩

theorem PullConfigs_trace (env : Env) (config : Config) (configDir : String) (podman : Bool)
    (sshCmd : String) (ks : List String) (tr : Trace) :
    ∃ d, (PullConfigs env config configDir podman sshCmd ks tr).trace = tr ++ d ∧
      ∀ e ∈ d, e.isLookup = true ∨ e.isCopy = true := by
  induction ks generalizing tr with
  | nil => exact ⟨[], by simp [PullConfigs], by simp⟩
  | cons k ks ih =>
    obtain ⟨d, hd, hl⟩ := PullConfig_trace env config k podman configDir sshCmd tr
    unfold PullConfigs
    dsimp only
    split
    · exact ⟨d, hd, hl⟩
    · obtain ⟨d2, hd2, hl2⟩ := ih (PullConfig env config k podman configDir sshCmd tr).trace
      refine ⟨d ++ d2, ?_, ?_⟩
      · rw [hd2, hd, List.append_assoc]
      · intro e he
        rcases List.mem_append.mp he with h | h
        · exact hl e h
        · exact hl2 e h

theorem PullConfigs_returns (env : Env) (config : Config) (configDir : String) (podman : Bool)
    (sshCmd : String) (ks : List String) (tr : Trace)
    (h : ∀ t c, (env.ExecCmd t c).1 ≠ []) :
    (PullConfigs env config configDir podman sshCmd ks tr).ret = some none := by
  induction ks generalizing tr with
  | nil => simp [PullConfigs]
  | cons k ks ih =>
    unfold PullConfigs
    dsimp only
    rw [PullConfig_returns env config k podman configDir sshCmd tr h]
    exact ih _

/-- The pull phase when every id lookup answers at least one line: it returns
nil, its commands are id lookups and copies, and every service visited is
served: its identifier is found at some point of the phase, the lookup (when
one is needed) is among the commands, and when the identifier is not blank the
copy of each of its paths into `configDir/service` is among the commands. -/
theorem PullConfigs_phase (env : Env) (config : Config) (configDir : String) (podman : Bool)
    (sshCmd : String) (ks : List String) (tr : Trace)
    (hex : ∀ t c, (env.ExecCmd t c).1 ≠ []) :
    ∃ pulls, PullConfigs env config configDir podman sshCmd ks tr = ⟨tr ++ pulls, some none⟩ ∧
      (∀ e ∈ pulls, e.isLookup = true ∨ e.isCopy = true) ∧
      ∀ s ∈ ks, ∃ t id l,
        (PullConfig.identifier env config s podman sshCmd t).ret = some id ∧
        (PullConfig.identifier env config s podman sshCmd t).trace = t ++ l ∧
        (∀ e ∈ l, e ∈ pulls) ∧
        (len (TrimSpace id) > 0 → ∀ path ∈ (config.service s).Path,
          (if podman then
            Effect.exec Caller.PullPodmanFiles
              (sshCmd ++ " podman cp " ++ id ++ ":" ++ path ++ " " ++
                (configDir ++ "/" ++ s ++ "/" ++ getDir (TrimRight path "/")))
          else
            Effect.exec Caller.PullPodFiles
              ("oc cp -c " ++ (config.service s).ContainerName ++ " " ++ id ++ ":" ++
                path ++ " " ++ (configDir ++ "/" ++ s ++ "/" ++ path))) ∈ pulls) := by
  induction ks generalizing tr with
  | nil => exact ⟨[], by simp [PullConfigs], by simp, by simp⟩
  | cons k ks ih =>
    obtain ⟨id, hid⟩ := identifier_returns env config k podman sshCmd tr hex
    obtain ⟨l, hl, -, hlook⟩ := identifier_trace env config k podman sshCmd tr
    obtain ⟨d1, hd1, hall1⟩ := PullConfig_trace env config k podman configDir sshCmd tr
    have hret := PullConfig_returns env config k podman configDir sshCmd tr hex
    have hof := PullConfig_of_identifier env config k podman configDir sshCmd tr id hid
    obtain ⟨d2, hd2, hall2, hserved⟩ := ih (tr ++ d1)
    have hcons : PullConfigs env config configDir podman sshCmd (k :: ks) tr =
        ⟨tr ++ (d1 ++ d2), some none⟩ := by
      conv => lhs; unfold PullConfigs
      simp only [hret, hd1, hd2, List.append_assoc]
    refine ⟨d1 ++ d2, hcons, ?_, ?_⟩
    · intro e he
      rcases List.mem_append.mp he with h | h
      · exact hall1 e h
      · exact hall2 e h
    · intro s hs
      rcases List.mem_cons.mp hs with h | h
      · subst h
        refine ⟨tr, id, l, hid, hl, ?_, ?_⟩
        · intro e he
          apply List.mem_append_left
          have htrace : tr ++ d1 =
              (PullConfig env config s podman configDir sshCmd tr).trace := hd1.symm
          rw [hof] at htrace
          by_cases hlen : len (TrimSpace id) > 0
          · simp only [hlen, if_true, hl, List.append_assoc] at htrace
            have := List.append_cancel_left htrace
            rw [this]
            exact List.mem_append_left _ he
          · simp only [hlen, if_false, hl] at htrace
            have := List.append_cancel_left htrace
            rw [this]
            exact he
        · intro hlen path hpath
          apply List.mem_append_left
          have htrace : tr ++ d1 =
              (PullConfig env config s podman configDir sshCmd tr).trace := hd1.symm
          rw [hof] at htrace
          simp only [hlen, if_true, hl, List.append_assoc] at htrace
          have := List.append_cancel_left htrace
          rw [this]
          apply List.mem_append_right
          cases podman with
          | true =>
            simp only [if_true]
            exact List.mem_map.mpr ⟨path, hpath, rfl⟩
          | false =>
            simp only [Bool.false_eq_true, if_false]
            exact List.mem_map.mpr ⟨path, hpath, rfl⟩
      · obtain ⟨t, id2, l2, h1, h2, h3, h4⟩ := hserved s h
        exact ⟨t, id2, l2, h1, h2, fun e he => List.mem_append_right _ (h3 e he),
          fun hlen path hpath => List.mem_append_right _ (h4 hlen path hpath)⟩

/-! ## `CreateServicesTrees` -/

theorem CreateServiceTree_trace (env : Env) (serviceName path configDir sshCmd : String)
    (tr : Trace) :
    (CreateServiceTree env serviceName path configDir sshCmd tr).trace =
      tr ++ [Effect.exec Caller.CreateServiceTree
        (sshCmd ++ " mkdir -p " ++ (configDir ++ "/" ++ serviceName ++ "/" ++ getDir path))] :=
  rfl

/-- The commands of the inner loop are directory creations. -/
theorem paths_trace (env : Env) (service configDir sshCmd : String) (ps : List String)
    (tr : Trace) :
    ∃ d, (CreateServicesTrees.paths env service configDir sshCmd ps tr).trace = tr ++ d ∧
      ∀ e ∈ d, ∃ cmd, e = Effect.exec Caller.CreateServiceTree cmd := by
  induction ps generalizing tr with
  | nil => exact ⟨[], by simp [CreateServicesTrees.paths], by simp⟩
  | cons p ps ih =>
    have hone := CreateServiceTree_trace env service p configDir sshCmd tr
    unfold CreateServicesTrees.paths
    dsimp only
    split
    · exact ⟨_, hone, by simp⟩
    · exact ⟨_, hone, by simp⟩
    · obtain ⟨d2, hd2, hl2⟩ := ih (CreateServiceTree env service p configDir sshCmd tr).trace
      refine ⟨Effect.exec Caller.CreateServiceTree
        (sshCmd ++ " mkdir -p " ++ (configDir ++ "/" ++ service ++ "/" ++ getDir p)) :: d2, ?_, ?_⟩
      · rw [hd2, hone]
        simp
      · intro e he
        rcases List.mem_cons.mp he with h | h
        · exact ⟨_, h⟩
        · exact hl2 e h

/-- When every directory creation succeeds the inner loop issues one `mkdir -p`
for each path, in order, and runs to its end. -/
theorem paths_success (env : Env) (service configDir sshCmd : String) (ps : List String)
    (tr : Trace) (hmk : ∀ t c, (env.ExecCmdSimple t c).2 = none) :
    CreateServicesTrees.paths env service configDir sshCmd ps tr =
      ⟨tr ++ ps.map (fun path => Effect.exec Caller.CreateServiceTree
        (sshCmd ++ " mkdir -p " ++ (configDir ++ "/" ++ service ++ "/" ++ getDir path))),
        some none⟩ := by
  induction ps generalizing tr with
  | nil => simp [CreateServicesTrees.paths]
  | cons p ps ih =>
    unfold CreateServicesTrees.paths
    dsimp only
    split
    · rename_i heq
      simp [CreateServiceTree] at heq
    · rename_i heq
      simp only [CreateServiceTree, Option.some.injEq] at heq
      have := hmk tr (sshCmd ++ " mkdir -p " ++ (configDir ++ "/" ++ service ++ "/" ++ getDir p))
      rw [heq] at this
      simp at this
    · rw [ih]
      simp [CreateServiceTree]

theorem CreateServicesTrees_trace (env : Env) (config : Config) (configDir sshCmd : String)
    (ks : List String) (tr : Trace) :
    ∃ d, (CreateServicesTrees env config configDir sshCmd ks tr).trace = tr ++ d ∧
      ∀ e ∈ d, ∃ cmd, e = Effect.exec Caller.CreateServiceTree cmd := by
  induction ks generalizing tr with
  | nil => exact ⟨[], by simp [CreateServicesTrees], by simp⟩
  | cons k ks ih =>
    obtain ⟨d, hd, hl⟩ := paths_trace env k configDir sshCmd (config.service k).Path tr
    unfold CreateServicesTrees
    dsimp only
    split
    · exact ⟨d, hd, hl⟩
    · exact ⟨d, hd, hl⟩
    · obtain ⟨d2, hd2, hl2⟩ :=
        ih (CreateServicesTrees.paths env k configDir sshCmd (config.service k).Path tr).trace
      refine ⟨d ++ d2, ?_, ?_⟩
      · rw [hd2, hd, List.append_assoc]
      · intro e he
        rcases List.mem_append.mp he with h | h
        · exact hl e h
        · exact hl2 e h

/-- When every directory creation succeeds `CreateServicesTrees` issues one
`mkdir -p` for every path of every service visited, and returns `("", nil)`. -/
theorem CreateServicesTrees_success (env : Env) (config : Config) (configDir sshCmd : String)
    (ks : List String) (tr : Trace) (hmk : ∀ t c, (env.ExecCmdSimple t c).2 = none) :
    CreateServicesTrees env config configDir sshCmd ks tr =
      ⟨tr ++ ks.flatMap (fun service => (config.service service).Path.map
        (fun path => Effect.exec Caller.CreateServiceTree
          (sshCmd ++ " mkdir -p " ++ (configDir ++ "/" ++ service ++ "/" ++ getDir path)))),
        some ("", none)⟩ := by
  induction ks generalizing tr with
  | nil => simp [CreateServicesTrees]
  | cons k ks ih =>
    unfold CreateServicesTrees
    dsimp only
    rw [paths_success env k configDir sshCmd _ tr hmk]
    dsimp only
    rw [ih]
    simp

/-- A service without paths can be left out of the visit of
`CreateServicesTrees`: it contributes nothing. -/
theorem CreateServicesTrees_skip (env : Env) (config : Config) (configDir sshCmd : String)
    (service : String) (hp : (config.service service).Path = []) (pre post : List String)
    (tr : Trace) :
    CreateServicesTrees env config configDir sshCmd (pre ++ service :: post) tr =
      CreateServicesTrees env config configDir sshCmd (pre ++ post) tr := by
  induction pre generalizing tr with
  | nil =>
    simp only [List.nil_append]
    conv => lhs; unfold CreateServicesTrees
    simp [hp, CreateServicesTrees.paths]
  | cons k pre ih =>
    simp only [List.cons_append]
    conv => lhs; unfold CreateServicesTrees
    conv => rhs; unfold CreateServicesTrees
    dsimp only
    split
    · rfl
    · rfl
    · exact ih _

/-- C10. A service whose path list is empty: `PullConfig` issues no copy command
for it, the inner loop of `CreateServicesTrees` issues no command for it, and
`CreateServicesTrees` runs exactly as if the service were not visited. This
holds for every manifest, every directory, both modes and every
environment. -/
theorem empty_path_list_issues_nothing (env : Env) (config : Config) (service : String)
    (podman : Bool) (configDir sshCmd : String) (tr : Trace)
    (hp : (config.service service).Path = []) :
    (∃ d, (PullConfig env config service podman configDir sshCmd tr).trace = tr ++ d ∧
        ∀ e ∈ d, e.isCopy = false) ∧
      CreateServicesTrees.paths env service configDir sshCmd (config.service service).Path tr =
        ⟨tr, some none⟩ ∧
      ∀ pre post : List String,
        CreateServicesTrees env config configDir sshCmd (pre ++ service :: post) tr =
          CreateServicesTrees env config configDir sshCmd (pre ++ post) tr := by
  refine ⟨?_, ?_, ?_⟩
  · obtain ⟨d, hd, -, hl⟩ := identifier_trace env config service podman sshCmd tr
    have hcopy : ∀ e ∈ d, e.isCopy = false := by
      intro e he
      have := hl e he
      cases e with
      | exec c cmd => cases c <;> simp_all [Effect.isLookup, Effect.isCopy]
      | write p x => simp [Effect.isCopy]
    cases hid : (PullConfig.identifier env config service podman sshCmd tr).ret with
    | none =>
      rw [PullConfig_of_panic env config service podman configDir sshCmd tr hid]
      exact ⟨d, hd, hcopy⟩
    | some id =>
      rw [PullConfig_of_identifier env config service podman configDir sshCmd tr id hid]
      refine ⟨d, ?_, hcopy⟩
      split <;> simp [hp, hd]
  · rw [hp]
    rfl
  · intro pre post
    exact CreateServicesTrees_skip env config configDir sshCmd service hp pre post tr

/-- C10, witness: the service `db` of `emptyPathManifest`, in orchestrator
mode. -/
theorem empty_path_list_issues_nothing_witness :
    (emptyPathManifest.service "db").Path = [] ∧
      (∃ d, (PullConfig (stubEnv ["db-5f7c"] "" (.ok []) emptyPathManifest) emptyPathManifest "db"
        false "/cfg" "" []).trace = [] ++ d ∧ ∀ e ∈ d, e.isCopy = false) ∧
      CreateServicesTrees.paths (stubEnv ["db-5f7c"] "" (.ok []) emptyPathManifest) "db" "/cfg" ""
        (emptyPathManifest.service "db").Path [] = ⟨[], some none⟩ ∧
      ∀ pre post : List String,
        CreateServicesTrees (stubEnv ["db-5f7c"] "" (.ok []) emptyPathManifest) emptyPathManifest
            "/cfg" "" (pre ++ "db" :: post) [] =
          CreateServicesTrees (stubEnv ["db-5f7c"] "" (.ok []) emptyPathManifest) emptyPathManifest
            "/cfg" "" (pre ++ post) [] :=
  ⟨by decide,
    empty_path_list_issues_nothing (stubEnv ["db-5f7c"] "" (.ok []) emptyPathManifest)
      emptyPathManifest "db" false "/cfg" "" [] (by decide)⟩

/-! ## The `httpd` scenario -/

theorem rangeOrder_singleton (ks : List String) (a : String) (hn : ks.Nodup)
    (hm : ∀ k, k ∈ ks ↔ k = a) : ks = [a] := by
  cases ks with
  | nil => exact absurd ((hm a).mpr rfl) (by simp)
  | cons x t =>
    have hx : x = a := (hm x).mp (by simp)
    cases t with
    | nil => rw [hx]
    | cons y t =>
      have hy : y = a := (hm y).mp (by simp)
      rw [hx, hy] at hn
      simp at hn

theorem single_service_rangeOrder (svc : Service) (ks : List String)
    (hks : (GoMap.make [("httpd", svc)]).RangeOrder ks) : ks = ["httpd"] := by
  apply rangeOrder_singleton ks "httpd" hks.1
  intro k
  rw [hks.2 k]
  by_cases hk : k = "httpd"
  · subst hk
    simp [GoMap.get, GoMap.entries]
  · have hk2 : ¬ "httpd" = k := fun h => hk h.symm
    simp [hk, hk2, GoMap.get, GoMap.entries]

theorem httpd_target (configDir : String) :
    configDir ++ "/" ++ "httpd" ++ "/" ++ getDir "/etc/httpd/conf" =
      configDir ++ "/httpd//etc/httpd" := by
  have h : getDir "/etc/httpd/conf" = "/etc/httpd" := by decide
  rw [h]
  apply String.ext
  simp

theorem httpd_target_trimmed (configDir : String) :
    configDir ++ "/" ++ "httpd" ++ "/" ++ getDir (TrimRight "/etc/httpd/conf" "/") =
      configDir ++ "/httpd//etc/httpd" := by
  have h : getDir (TrimRight "/etc/httpd/conf" "/") = "/etc/httpd" := by decide
  rw [h]
  apply String.ext
  simp

theorem paths_single (env : Env) (service configDir sshCmd path : String) (tr : Trace) :
    (CreateServicesTrees.paths env service configDir sshCmd [path] tr).trace =
      tr ++ [Effect.exec Caller.CreateServiceTree
        (sshCmd ++ " mkdir -p " ++ (configDir ++ "/" ++ service ++ "/" ++ getDir path))] := by
  unfold CreateServicesTrees.paths
  dsimp only
  split
  · rfl
  · rfl
  · unfold CreateServicesTrees.paths
    rfl

theorem CreateServicesTrees_single (env : Env) (config : Config) (configDir sshCmd k : String)
    (tr : Trace) :
    (CreateServicesTrees env config configDir sshCmd [k] tr).trace =
      (CreateServicesTrees.paths env k configDir sshCmd (config.service k).Path tr).trace := by
  unfold CreateServicesTrees
  dsimp only
  split
  · rfl
  · rfl
  · unfold CreateServicesTrees
    rfl

/-- C2, as amended. For every manifest that holds the single service `httpd`
with the podman id `abc123` and the path list `["/etc/httpd/conf"]`, whatever
its other fields (enabled or not), in podman mode with an empty prefix:
`CreateServicesTrees` issues exactly one command,
`" mkdir -p " ++ configDir ++ "/httpd//etc/httpd"`, and `PullConfigs` issues
exactly one command, the copy
`" podman cp abc123:/etc/httpd/conf " ++ configDir ++ "/httpd//etc/httpd"`,
and returns nil; no id lookup is issued. The target is the service directory
followed by the directory of the path, and both commands start with the blank
that follows the (empty) prefix. -/
theorem httpd_scenario_commands (env : Env) (svc : Service) (configDir : String)
    (ks : List String) (tr : Trace)
    (hid : svc.PodmanId = "abc123") (hpath : svc.Path = ["/etc/httpd/conf"])
    (hks : (GoMap.make [("httpd", svc)]).RangeOrder ks) :
    (CreateServicesTrees env ⟨.make [("httpd", svc)]⟩ configDir "" ks tr).trace =
        tr ++ [Effect.exec Caller.CreateServiceTree
          (" mkdir -p " ++ (configDir ++ "/httpd//etc/httpd"))] ∧
      PullConfigs env ⟨.make [("httpd", svc)]⟩ configDir true "" ks tr =
        ⟨tr ++ [Effect.exec Caller.PullPodmanFiles
          (" podman cp abc123:/etc/httpd/conf " ++ (configDir ++ "/httpd//etc/httpd"))],
          some none⟩ := by
  rw [single_service_rangeOrder svc ks hks]
  have hsvc : (Config.mk (.make [("httpd", svc)])).service "httpd" = svc := by
    simp [Config.service, GoMap.get, GoMap.entries]
  constructor
  · rw [CreateServicesTrees_single, hsvc, hpath, paths_single, httpd_target,
      String.empty_append]
  · have hne : svc.PodmanId ≠ "" := by
      rw [hid]
      decide
    have hident : (PullConfig.identifier env ⟨.make [("httpd", svc)]⟩ "httpd" true "" tr).ret =
        some "abc123" := by
      simp [PullConfig.identifier, hsvc, hne, hid]
    have htr : (PullConfig.identifier env ⟨.make [("httpd", svc)]⟩ "httpd" true "" tr).trace =
        tr := by
      simp [PullConfig.identifier, hsvc, hne]
    have hlen : len (TrimSpace "abc123") > 0 := by decide
    unfold PullConfigs
    dsimp only
    rw [PullConfig_of_identifier env ⟨.make [("httpd", svc)]⟩ "httpd" true configDir "" tr
      "abc123" hident]
    simp only [hlen, if_true, htr, hsvc, hpath, List.map, httpd_target_trimmed,
      String.empty_append]
    simp [PullConfigs]

theorem single_service_order (svc : Service) :
    (GoMap.make [("httpd", svc)]).RangeOrder ["httpd"] := by
  refine ⟨by simp, ?_⟩
  intro k
  by_cases hk : k = "httpd"
  · subst hk
    simp [GoMap.get, GoMap.entries]
  · have hk2 : ¬ "httpd" = k := fun h => hk h.symm
    simp [hk, hk2, GoMap.get, GoMap.entries]

/-- C2, witness: the manifest of the scenario as written, where only the id
and the path are set (`enable` is left at false), the directory `/cfg`, the
only visiting order of the manifest, an environment where every command
succeeds. -/
theorem httpd_scenario_commands_witness :
    (⟨false, "abc123", "", "", "", "", false, ["/etc/httpd/conf"]⟩ : Service).PodmanId =
        "abc123" ∧
      (⟨false, "abc123", "", "", "", "", false, ["/etc/httpd/conf"]⟩ : Service).Path =
        ["/etc/httpd/conf"] ∧
      (GoMap.make [("httpd",
        (⟨false, "abc123", "", "", "", "", false, ["/etc/httpd/conf"]⟩ : Service))]).RangeOrder
        ["httpd"] ∧
      (CreateServicesTrees (stubEnv [""] "" (.ok []) httpdManifest)
          ⟨.make [("httpd", ⟨false, "abc123", "", "", "", "", false, ["/etc/httpd/conf"]⟩)]⟩
          "/cfg" "" ["httpd"] []).trace =
        [] ++ [Effect.exec Caller.CreateServiceTree (" mkdir -p " ++ ("/cfg" ++ "/httpd//etc/httpd"))] ∧
      PullConfigs (stubEnv [""] "" (.ok []) httpdManifest)
          ⟨.make [("httpd", ⟨false, "abc123", "", "", "", "", false, ["/etc/httpd/conf"]⟩)]⟩
          "/cfg" true "" ["httpd"] [] =
        ⟨[] ++ [Effect.exec Caller.PullPodmanFiles
          (" podman cp abc123:/etc/httpd/conf " ++ ("/cfg" ++ "/httpd//etc/httpd"))], some none⟩ :=
  ⟨rfl, rfl, single_service_order _,
    httpd_scenario_commands (stubEnv [""] "" (.ok []) httpdManifest)
      ⟨false, "abc123", "", "", "", "", false, ["/etc/httpd/conf"]⟩ "/cfg" ["httpd"] []
      rfl rfl (single_service_order _)⟩

/-- C2, counterexample. With the directory `/cfg`, the directory created is
`/cfg/httpd//etc/httpd`, not `/cfg/httpd`, and the copy goes to the same
place and starts with a blank: neither command is the one of the claim. -/
theorem httpd_scenario_claimed_commands_refuted :
    (CreateServicesTrees (stubEnv [""] "" (.ok []) httpdManifest) httpdManifest "/cfg" ""
          ["httpd"] []).trace =
        [Effect.exec Caller.CreateServiceTree " mkdir -p /cfg/httpd//etc/httpd"] ∧
      (CreateServicesTrees (stubEnv [""] "" (.ok []) httpdManifest) httpdManifest "/cfg" ""
          ["httpd"] []).trace ≠
        [Effect.exec Caller.CreateServiceTree ("" ++ " mkdir -p " ++ ("/cfg" ++ "/httpd"))] ∧
      (PullConfigs (stubEnv [""] "" (.ok []) httpdManifest) httpdManifest "/cfg" true ""
          ["httpd"] []).trace =
        [Effect.exec Caller.PullPodmanFiles
          " podman cp abc123:/etc/httpd/conf /cfg/httpd//etc/httpd"] ∧
      (PullConfigs (stubEnv [""] "" (.ok []) httpdManifest) httpdManifest "/cfg" true ""
          ["httpd"] []).trace ≠
        [Effect.exec Caller.PullPodmanFiles
          ("podman cp abc123:/etc/httpd/conf " ++ ("/cfg" ++ "/httpd"))] ∧
      (PullConfigs (stubEnv [""] "" (.ok []) httpdManifest) httpdManifest "/cfg" true ""
          ["httpd"] []).trace ≠
        [Effect.exec Caller.PullPodmanFiles
          (" podman cp abc123:/etc/httpd/conf " ++ ("/cfg" ++ "/httpd"))] := by
  decide

/-! ## `FetchConfigFromEnv` -/

theorem Run.eq_of (α : Type) (r : Run α) (t : Trace) (x : Option α) (h1 : r.trace = t)
    (h2 : r.ret = x) : r = ⟨t, x⟩ := by
  cases r
  simp_all

/-- The run of `FetchConfigFromEnv` when the manifest loads, every directory
creation succeeds and every id lookup answers at least one line. -/
theorem FetchConfigFromEnv_run (env : Env) (config0 config : Config) (ks1 ks2 : List String)
    (configPath localDir remoteDir : String) (podman : Bool) (connection sshCmd : String)
    (tr : Trace)
    (hload : LoadServiceConfig env configPath config0 tr = (none, config))
    (hmk : ∀ t c, (env.ExecCmdSimple t c).2 = none)
    (hex : ∀ t c, (env.ExecCmd t c).1 ≠ []) :
    ∃ pulls, (∀ e ∈ pulls, e.isLookup = true ∨ e.isCopy = true) ∧
      FetchConfigFromEnv env config0 ks1 ks2 configPath localDir remoteDir podman connection
          sshCmd tr =
        if connection = "local" then
          ⟨tr ++ ks1.flatMap (fun service => (config.service service).Path.map
              (fun path => Effect.exec Caller.CreateServiceTree
                (sshCmd ++ " mkdir -p " ++ (localDir ++ "/" ++ service ++ "/" ++ getDir path))))
            ++ pulls, some none⟩
        else
          ⟨tr ++ ks1.flatMap (fun service => (config.service service).Path.map
              (fun path => Effect.exec Caller.CreateServiceTree
                (sshCmd ++ " mkdir -p " ++ (remoteDir ++ "/" ++ service ++ "/" ++ getDir path))))
            ++ pulls
            ++ [Effect.exec Caller.SyncConfigDir
                ("rsync -a -e '" ++ sshCmd ++ "' :" ++ remoteDir ++ " " ++ localDir)]
            ++ (if remoteDir = "" ∨ remoteDir = "/" then []
                else [Effect.exec Caller.CleanUp (sshCmd ++ " rm -rf " ++ remoteDir)]),
            some none⟩ := by
  unfold FetchConfigFromEnv
  simp only [hload]
  by_cases hc : connection = "local"
  · simp only [hc, if_true]
    rw [CreateServicesTrees_success env config localDir sshCmd ks1 tr hmk]
    dsimp only
    obtain ⟨d, hd, hl⟩ := PullConfigs_trace env config localDir podman sshCmd ks2
      (tr ++ ks1.flatMap (fun service => (config.service service).Path.map
        (fun path => Effect.exec Caller.CreateServiceTree
          (sshCmd ++ " mkdir -p " ++ (localDir ++ "/" ++ service ++ "/" ++ getDir path)))))
    have hr := PullConfigs_returns env config localDir podman sshCmd ks2
      (tr ++ ks1.flatMap (fun service => (config.service service).Path.map
        (fun path => Effect.exec Caller.CreateServiceTree
          (sshCmd ++ " mkdir -p " ++ (localDir ++ "/" ++ service ++ "/" ++ getDir path))))) hex
    refine ⟨d, hl, ?_⟩
    rw [Run.eq_of _ _ _ _ hd hr]
  · simp only [hc, if_false]
    rw [CreateServicesTrees_success env config remoteDir sshCmd ks1 tr hmk]
    dsimp only
    obtain ⟨d, hd, hl⟩ := PullConfigs_trace env config remoteDir podman sshCmd ks2
      (tr ++ ks1.flatMap (fun service => (config.service service).Path.map
        (fun path => Effect.exec Caller.CreateServiceTree
          (sshCmd ++ " mkdir -p " ++ (remoteDir ++ "/" ++ service ++ "/" ++ getDir path)))))
    have hr := PullConfigs_returns env config remoteDir podman sshCmd ks2
      (tr ++ ks1.flatMap (fun service => (config.service service).Path.map
        (fun path => Effect.exec Caller.CreateServiceTree
          (sshCmd ++ " mkdir -p " ++ (remoteDir ++ "/" ++ service ++ "/" ++ getDir path))))) hex
    refine ⟨d, hl, ?_⟩
    rw [Run.eq_of _ _ _ _ hd hr]
    dsimp only [SyncConfigDir]
    by_cases hg : remoteDir = "" ∨ remoteDir = "/"
    · simp [CleanUp, hg]
    · simp [CleanUp, hg]

/-- With an empty or root remote directory no run of `FetchConfigFromEnv`
issues a removal, whatever the environment answers. -/
theorem FetchConfigFromEnv_no_removal (env : Env) (config0 : Config) (ks1 ks2 : List String)
    (configPath localDir remoteDir : String) (podman : Bool) (connection sshCmd : String)
    (tr : Trace) (hdir : remoteDir = "" ∨ remoteDir = "/") :
    ∃ d, (FetchConfigFromEnv env config0 ks1 ks2 configPath localDir remoteDir podman connection
        sshCmd tr).trace = tr ++ d ∧ ∀ e ∈ d, e.isRemoval = false := by
  have mk : ∀ (dir : String),
      ∃ d, (CreateServicesTrees env (LoadServiceConfig env configPath config0 tr).2 dir sshCmd
        ks1 tr).trace = tr ++ d ∧ ∀ e ∈ d, e.isRemoval = false := by
    intro dir
    obtain ⟨d, hd, hl⟩ := CreateServicesTrees_trace env
      (LoadServiceConfig env configPath config0 tr).2 dir sshCmd ks1 tr
    refine ⟨d, hd, ?_⟩
    intro e he
    obtain ⟨cmd, rfl⟩ := hl e he
    rfl
  have pl : ∀ (dir : String) (t : Trace),
      ∃ d, (PullConfigs env (LoadServiceConfig env configPath config0 tr).2 dir podman sshCmd
        ks2 t).trace = t ++ d ∧ ∀ e ∈ d, e.isRemoval = false := by
    intro dir t
    obtain ⟨d, hd, hl⟩ := PullConfigs_trace env
      (LoadServiceConfig env configPath config0 tr).2 dir podman sshCmd ks2 t
    refine ⟨d, hd, ?_⟩
    intro e he
    have := hl e he
    cases e with
    | exec c cmd => cases c <;> simp_all [Effect.isLookup, Effect.isCopy, Effect.isRemoval]
    | write p x => simp [Effect.isRemoval]
  unfold FetchConfigFromEnv
  dsimp only
  split
  · exact ⟨[], by simp, by simp⟩
  · split
    · obtain ⟨d1, hd1, hl1⟩ := mk localDir
      split
      · exact ⟨d1, hd1, hl1⟩
      · exact ⟨d1, hd1, hl1⟩
      · obtain ⟨d2, hd2, hl2⟩ := pl localDir
          (CreateServicesTrees env (LoadServiceConfig env configPath config0 tr).2 localDir sshCmd
            ks1 tr).trace
        have hall : ∀ e ∈ d1 ++ d2, e.isRemoval = false := by
          intro e he
          rcases List.mem_append.mp he with h | h
          · exact hl1 e h
          · exact hl2 e h
        split
        · exact ⟨d1 ++ d2, by rw [hd2, hd1, List.append_assoc], hall⟩
        · exact ⟨d1 ++ d2, by rw [hd2, hd1, List.append_assoc], hall⟩
    · obtain ⟨d1, hd1, hl1⟩ := mk remoteDir
      split
      · exact ⟨d1, hd1, hl1⟩
      · exact ⟨d1, hd1, hl1⟩
      · obtain ⟨d2, hd2, hl2⟩ := pl remoteDir
          (CreateServicesTrees env (LoadServiceConfig env configPath config0 tr).2 remoteDir sshCmd
            ks1 tr).trace
        have hall : ∀ e ∈ d1 ++ d2, e.isRemoval = false := by
          intro e he
          rcases List.mem_append.mp he with h | h
          · exact hl1 e h
          · exact hl2 e h
        split
        · exact ⟨d1 ++ d2, by rw [hd2, hd1, List.append_assoc], hall⟩
        · refine ⟨d1 ++ d2 ++ [Effect.exec Caller.SyncConfigDir
            ("rsync -a -e '" ++ sshCmd ++ "' :" ++ remoteDir ++ " " ++ localDir)], ?_, ?_⟩
          · simp only [CleanUp, hdir, if_true, SyncConfigDir]
            rw [hd2, hd1]
            simp
          · intro e he
            rcases List.mem_append.mp he with h | h
            · exact hall e h
            · rw [List.mem_singleton.mp h]
              rfl

/-- C5, as amended. When the manifest loads, every directory creation succeeds
and every id lookup answers at least one line, the commands of
`FetchConfigFromEnv` are, in this order: one `mkdir -p` for every path of every
service visited, targeting `dir/service/dirname(path)`; then the commands
`pulls` of the pull phase; and, in remote mode only (`dir` is then `remoteDir`,
otherwise `localDir`), one `rsync` command followed by the removal of
`remoteDir` unless `remoteDir` is `""` or `"/"`, in which case no removal is
issued. The call returns nil. The pull phase is the run of `PullConfigs` on
`dir` after the directory creations: its commands are id lookups and copies,
and for every service visited the lookup of its identifier (when one is
needed) and, when the identifier is not blank, the copy of each of its paths
into `dir/service` are among them. -/
theorem FetchConfigFromEnv_command_sequence (env : Env) (config0 config : Config)
    (ks1 ks2 : List String) (configPath localDir remoteDir : String) (podman : Bool)
    (connection sshCmd : String) (tr : Trace)
    (hload : LoadServiceConfig env configPath config0 tr = (none, config))
    (hmk : ∀ t c, (env.ExecCmdSimple t c).2 = none)
    (hex : ∀ t c, (env.ExecCmd t c).1 ≠ []) :
    ∃ pulls, (∀ e ∈ pulls, e.isLookup = true ∨ e.isCopy = true) ∧
      FetchConfigFromEnv env config0 ks1 ks2 configPath localDir remoteDir podman connection
          sshCmd tr =
        (if connection = "local" then
          ⟨tr ++ ks1.flatMap (fun service => (config.service service).Path.map
              (fun path => Effect.exec Caller.CreateServiceTree
                (sshCmd ++ " mkdir -p " ++ (localDir ++ "/" ++ service ++ "/" ++ getDir path))))
            ++ pulls, some none⟩
        else
          ⟨tr ++ ks1.flatMap (fun service => (config.service service).Path.map
              (fun path => Effect.exec Caller.CreateServiceTree
                (sshCmd ++ " mkdir -p " ++ (remoteDir ++ "/" ++ service ++ "/" ++ getDir path))))
            ++ pulls
            ++ [Effect.exec Caller.SyncConfigDir
                ("rsync -a -e '" ++ sshCmd ++ "' :" ++ remoteDir ++ " " ++ localDir)]
            ++ (if remoteDir = "" ∨ remoteDir = "/" then []
                else [Effect.exec Caller.CleanUp (sshCmd ++ " rm -rf " ++ remoteDir)]),
            some none⟩) ∧
      PullConfigs env config (if connection = "local" then localDir else remoteDir) podman sshCmd ks2
          (tr ++ ks1.flatMap (fun service => (config.service service).Path.map
              (fun path => Effect.exec Caller.CreateServiceTree
                (sshCmd ++ " mkdir -p " ++ ((if connection = "local" then localDir else remoteDir) ++ "/" ++ service ++ "/" ++ getDir path))))) =
        ⟨tr ++ ks1.flatMap (fun service => (config.service service).Path.map
              (fun path => Effect.exec Caller.CreateServiceTree
                (sshCmd ++ " mkdir -p " ++ ((if connection = "local" then localDir else remoteDir) ++ "/" ++ service ++ "/" ++ getDir path))))
          ++ pulls, some none⟩ ∧
      ∀ s ∈ ks2, ∃ t id l,
        (PullConfig.identifier env config s podman sshCmd t).ret = some id ∧
        (PullConfig.identifier env config s podman sshCmd t).trace = t ++ l ∧
        (∀ e ∈ l, e ∈ pulls) ∧
        (len (TrimSpace id) > 0 → ∀ path ∈ (config.service s).Path,
          (if podman then
            Effect.exec Caller.PullPodmanFiles
              (sshCmd ++ " podman cp " ++ id ++ ":" ++ path ++ " " ++
                ((if connection = "local" then localDir else remoteDir) ++ "/" ++ s ++ "/" ++
                  getDir (TrimRight path "/")))
          else
            Effect.exec Caller.PullPodFiles
              ("oc cp -c " ++ (config.service s).ContainerName ++ " " ++ id ++ ":" ++
                path ++ " " ++
                ((if connection = "local" then localDir else remoteDir) ++ "/" ++ s ++ "/" ++
                  path))) ∈ pulls) := by
  obtain ⟨pulls, hrun, hall, hserved⟩ := PullConfigs_phase env config
    (if connection = "local" then localDir else remoteDir) podman sshCmd ks2
    (tr ++ ks1.flatMap (fun service => (config.service service).Path.map
              (fun path => Effect.exec Caller.CreateServiceTree
                (sshCmd ++ " mkdir -p " ++ ((if connection = "local" then localDir else remoteDir) ++ "/" ++ service ++ "/" ++ getDir path))))) hex
  refine ⟨pulls, hall, ?_, hrun, hserved⟩
  unfold FetchConfigFromEnv
  simp only [hload]
  by_cases hc : connection = "local"
  · simp only [hc, if_true] at hrun ⊢
    rw [CreateServicesTrees_success env config localDir sshCmd ks1 tr hmk]
    dsimp only
    rw [hrun]
  · simp only [hc, if_false] at hrun ⊢
    rw [CreateServicesTrees_success env config remoteDir sshCmd ks1 tr hmk]
    dsimp only
    rw [hrun]
    dsimp only [SyncConfigDir]
    by_cases hg : remoteDir = "" ∨ remoteDir = "/"
    · simp [CleanUp, hg]
    · simp [CleanUp, hg]

theorem stubEnv_mkdir_succeeds (lines : List String) (listing : String)
    (records : Except String (List PodmanContainer)) (manifest : Config) :
    ∀ (t : Trace) (c : String),
      ((stubEnv lines listing records manifest).ExecCmdSimple t c).2 = none :=
  fun _ _ => rfl

theorem stubEnv_lookup_answers (l : String) (lines : List String) (listing : String)
    (records : Except String (List PodmanContainer)) (manifest : Config) :
    ∀ (t : Trace) (c : String),
      ((stubEnv (l :: lines) listing records manifest).ExecCmd t c).1 ≠ [] :=
  fun _ _ => List.cons_ne_nil _ _

/-- C5, witness: the `httpd` manifest fetched in remote mode through
`ssh host`, staged in `/tmp/stage`. The pull phase is the single copy of the
path of `httpd`. -/
theorem FetchConfigFromEnv_command_sequence_witness :
    LoadServiceConfig (stubEnv [""] "" (.ok []) httpdManifest) "config.yaml" ⟨.nil⟩ [] =
        (none, httpdManifest) ∧
      (∀ (t : Trace) (c : String),
        ((stubEnv [""] "" (.ok []) httpdManifest).ExecCmdSimple t c).2 = none) ∧
      (∀ (t : Trace) (c : String),
        ((stubEnv [""] "" (.ok []) httpdManifest).ExecCmd t c).1 ≠ []) ∧
      ∃ pulls,
        pulls = [Effect.exec Caller.PullPodmanFiles
          "ssh host podman cp abc123:/etc/httpd/conf /tmp/stage/httpd//etc/httpd"] ∧
        FetchConfigFromEnv (stubEnv [""] "" (.ok []) httpdManifest) ⟨.nil⟩ ["httpd"] ["httpd"]
            "config.yaml" "/local" "/tmp/stage" true "ssh" "ssh host" [] =
          ⟨[Effect.exec Caller.CreateServiceTree "ssh host mkdir -p /tmp/stage/httpd//etc/httpd"]
            ++ pulls
            ++ [Effect.exec Caller.SyncConfigDir "rsync -a -e 'ssh host' :/tmp/stage /local",
              Effect.exec Caller.CleanUp "ssh host rm -rf /tmp/stage"], some none⟩ := by
  obtain ⟨pulls, -, hfetch, hrun, -⟩ :=
    FetchConfigFromEnv_command_sequence (stubEnv [""] "" (.ok []) httpdManifest) ⟨.nil⟩
      httpdManifest ["httpd"] ["httpd"] "config.yaml" "/local" "/tmp/stage" true "ssh" "ssh host" []
      rfl (stubEnv_mkdir_succeeds _ _ _ _) (stubEnv_lookup_answers _ _ _ _ _)
  refine ⟨rfl, stubEnv_mkdir_succeeds _ _ _ _, stubEnv_lookup_answers _ _ _ _ _, pulls, ?_, ?_⟩
  · have hdir : (if "ssh" = "local" then "/local" else "/tmp/stage") = "/tmp/stage" := by decide
    rw [hdir] at hrun
    have hpull : PullConfigs (stubEnv [""] "" (.ok []) httpdManifest) httpdManifest "/tmp/stage"
        true "ssh host" ["httpd"]
        ([] ++ ["httpd"].flatMap (fun service => (httpdManifest.service service).Path.map
          (fun path => Effect.exec Caller.CreateServiceTree
            ("ssh host" ++ " mkdir -p " ++ ("/tmp/stage" ++ "/" ++ service ++ "/" ++ getDir path))))) =
        ⟨([] ++ ["httpd"].flatMap (fun service => (httpdManifest.service service).Path.map
          (fun path => Effect.exec Caller.CreateServiceTree
            ("ssh host" ++ " mkdir -p " ++ ("/tmp/stage" ++ "/" ++ service ++ "/" ++ getDir path)))))
          ++ [Effect.exec Caller.PullPodmanFiles
            "ssh host podman cp abc123:/etc/httpd/conf /tmp/stage/httpd//etc/httpd"],
          some none⟩ := by
      decide
    rw [hpull] at hrun
    have := congrArg Run.trace hrun
    exact (List.append_cancel_left this).symm
  · rw [hfetch, if_neg (by decide), if_neg (by decide)]
    have hmkdir : ([] : Trace) ++ ["httpd"].flatMap (fun service =>
        (httpdManifest.service service).Path.map
          (fun path => Effect.exec Caller.CreateServiceTree
            ("ssh host" ++ " mkdir -p " ++ ("/tmp/stage" ++ "/" ++ service ++ "/" ++ getDir path)))) =
        [Effect.exec Caller.CreateServiceTree
          "ssh host mkdir -p /tmp/stage/httpd//etc/httpd"] := by
      decide
    have hsync : "rsync -a -e '" ++ "ssh host" ++ "' :" ++ "/tmp/stage" ++ " " ++ "/local" =
        "rsync -a -e 'ssh host' :/tmp/stage /local" := by decide
    have hrm : "ssh host" ++ " rm -rf " ++ "/tmp/stage" = "ssh host rm -rf /tmp/stage" := by
      decide
    rw [hmkdir, hsync, hrm]
    simp

/-- C5, counterexample. In remote mode with the remote directory `/`, every
directory creation succeeding, the commands end with the `rsync`: no removal
of the remote directory follows it. -/
theorem FetchConfigFromEnv_root_not_removed :
    (FetchConfigFromEnv (stubEnv [""] "" (.ok []) httpdManifest) ⟨.nil⟩ ["httpd"] ["httpd"]
        "config.yaml" "/local" "/" true "ssh" "ssh host" []).trace =
      [Effect.exec Caller.CreateServiceTree "ssh host mkdir -p //httpd//etc/httpd",
        Effect.exec Caller.PullPodmanFiles
          "ssh host podman cp abc123:/etc/httpd/conf //httpd//etc/httpd",
        Effect.exec Caller.SyncConfigDir "rsync -a -e 'ssh host' :/ /local"] ∧
      Effect.exec Caller.CleanUp ("ssh host" ++ " rm -rf " ++ "/") ∉
        (FetchConfigFromEnv (stubEnv [""] "" (.ok []) httpdManifest) ⟨.nil⟩ ["httpd"] ["httpd"]
          "config.yaml" "/local" "/" true "ssh" "ssh host" []).trace := by
  decide

/-- C9, as amended. In remote mode with `remoteDir` equal to `""` or `"/"`,
`CleanUp` returns its guard error without issuing a command, and
`FetchConfigFromEnv` issues no removal command; it drops the guard error:
when the manifest loads, every directory creation succeeds and every id lookup
answers at least one line, it returns nil. -/
theorem FetchConfigFromEnv_drops_guard_error (env : Env) (config0 config : Config)
    (ks1 ks2 : List String) (configPath localDir remoteDir : String) (podman : Bool)
    (connection sshCmd : String) (tr : Trace)
    (hdir : remoteDir = "" ∨ remoteDir = "/") (hconn : connection ≠ "local")
    (hload : LoadServiceConfig env configPath config0 tr = (none, config))
    (hmk : ∀ t c, (env.ExecCmdSimple t c).2 = none)
    (hex : ∀ t c, (env.ExecCmd t c).1 ≠ []) :
    (∀ t, (CleanUp remoteDir sshCmd t).trace = t ∧
        ∃ err, (CleanUp remoteDir sshCmd t).ret = some (some err)) ∧
      (FetchConfigFromEnv env config0 ks1 ks2 configPath localDir remoteDir podman connection
        sshCmd tr).ret = some none ∧
      ∃ d, (FetchConfigFromEnv env config0 ks1 ks2 configPath localDir remoteDir podman
        connection sshCmd tr).trace = tr ++ d ∧ ∀ e ∈ d, e.isRemoval = false := by
  refine ⟨?_, ?_, ?_⟩
  · intro t
    simp [CleanUp, hdir]
  · obtain ⟨pulls, -, h⟩ := FetchConfigFromEnv_run env config0 config ks1 ks2 configPath localDir
      remoteDir podman connection sshCmd tr hload hmk hex
    rw [h]
    simp [hconn]
  · exact FetchConfigFromEnv_no_removal env config0 ks1 ks2 configPath localDir remoteDir podman
      connection sshCmd tr hdir

/-- C9, witness: the `httpd` manifest fetched in remote mode with the remote
directory `/`. -/
theorem FetchConfigFromEnv_drops_guard_error_witness :
    (("/" : String) = "" ∨ ("/" : String) = "/") ∧ "ssh" ≠ "local" ∧
      LoadServiceConfig (stubEnv [""] "" (.ok []) httpdManifest) "config.yaml" ⟨.nil⟩ [] =
        (none, httpdManifest) ∧
      (∀ t, (CleanUp "/" "ssh host" t).trace = t ∧
        ∃ err, (CleanUp "/" "ssh host" t).ret = some (some err)) ∧
      (FetchConfigFromEnv (stubEnv [""] "" (.ok []) httpdManifest) ⟨.nil⟩ ["httpd"] ["httpd"]
        "config.yaml" "/local" "/" true "ssh" "ssh host" []).ret = some none ∧
      ∃ d, (FetchConfigFromEnv (stubEnv [""] "" (.ok []) httpdManifest) ⟨.nil⟩ ["httpd"] ["httpd"]
        "config.yaml" "/local" "/" true "ssh" "ssh host" []).trace = [] ++ d ∧
        ∀ e ∈ d, e.isRemoval = false :=
  ⟨by decide, by decide, rfl,
    FetchConfigFromEnv_drops_guard_error (stubEnv [""] "" (.ok []) httpdManifest) ⟨.nil⟩
      httpdManifest ["httpd"] ["httpd"] "config.yaml" "/local" "/" true "ssh" "ssh host" []
      (by decide) (by decide) rfl (stubEnv_mkdir_succeeds _ _ _ _)
      (stubEnv_lookup_answers _ _ _ _ _)⟩

/-- C9, counterexample. In remote mode with the remote directory `/`, the
manifest loading and every command succeeding, `FetchConfigFromEnv` returns
nil, not an error. -/
theorem FetchConfigFromEnv_guard_not_fatal :
    (FetchConfigFromEnv (stubEnv [""] "" (.ok []) httpdManifest) ⟨.nil⟩ ["httpd"] ["httpd"]
        "config.yaml" "/local" "/" true "ssh" "ssh host" []).ret = some none ∧
      ¬ ∃ err, (FetchConfigFromEnv (stubEnv [""] "" (.ok []) httpdManifest) ⟨.nil⟩ ["httpd"]
        ["httpd"] "config.yaml" "/local" "/" true "ssh" "ssh host" []).ret = some (some err) := by
  constructor
  · decide
  · have h : (FetchConfigFromEnv (stubEnv [""] "" (.ok []) httpdManifest) ⟨.nil⟩ ["httpd"]
        ["httpd"] "config.yaml" "/local" "/" true "ssh" "ssh host" []).ret = some none := by
      decide
    rw [h]
    simp

/-! ## `SetTripleODataEnv` -/

theorem rangeOrder_nil (ks : List String)
    (hks : (GoMap.nil : GoMap (GoMap String)).RangeOrder ks) : ks = [] := by
  cases ks with
  | nil => rfl
  | cons k t =>
    have := (hks.2 k).mp (by simp)
    simp [GoMap.get, GoMap.entries] at this

/-- C8, as amended. When the listing is not valid JSON, `buildPodmanInfo` fails
with the parse error and no data, but `SetTripleODataEnv` drops that error: it
goes on to load the manifest, updates nothing, and writes the manifest back as
loaded; what it returns is the result of that write. -/
theorem SetTripleODataEnv_drops_parse_error (env : Env) (config0 config : Config)
    (ks : List String) (configPath sshCmd : String) (filters : List String) (all : Bool)
    (tr : Trace) (output err yamlData : String)
    (hlist : (GetPodmanIds env sshCmd all tr).ret = some (output, none))
    (hparse : env.Unmarshal output = .error err)
    (hks : (GoMap.nil : GoMap (GoMap String)).RangeOrder ks)
    (hload : LoadServiceConfig env configPath config0 (GetPodmanIds env sshCmd all tr).trace =
      (none, config))
    (hyaml : env.Marshal config = .ok yamlData) :
    buildPodmanInfo env output filters = .ok (.nil, some err) ∧
      SetTripleODataEnv env config0 ks configPath sshCmd filters all tr =
        some ⟨(GetPodmanIds env sshCmd all tr).trace ++ [Effect.write configPath yamlData],
          some (env.WriteFile (GetPodmanIds env sshCmd all tr).trace configPath yamlData)⟩ := by
  have hb : buildPodmanInfo env output filters = .ok (.nil, some err) := by
    simp [buildPodmanInfo, hparse]
  refine ⟨hb, ?_⟩
  rw [rangeOrder_nil ks hks]
  unfold SetTripleODataEnv
  simp only [hlist, hb, hload, SetTripleODataEnv.update, dumpConfigFile, hyaml]

theorem rangeOrder_nil_nil : (GoMap.nil : GoMap (GoMap String)).RangeOrder [] := by
  refine ⟨by simp, ?_⟩
  intro k
  simp [GoMap.get, GoMap.entries]

/-- C8, witness: the listing command answers an error message of the shell,
which is not JSON. -/
theorem SetTripleODataEnv_drops_parse_error_witness :
    (GetPodmanIds (stubEnv [""] "bash: podman: command not found" (.error "invalid character")
        httpdManifest) "ssh host" true []).ret = some ("bash: podman: command not found", none) ∧
      buildPodmanInfo (stubEnv [""] "bash: podman: command not found" (.error "invalid character")
        httpdManifest) "bash: podman: command not found" ["httpd"] =
        .ok (.nil, some "invalid character") ∧
      SetTripleODataEnv (stubEnv [""] "bash: podman: command not found"
          (.error "invalid character") httpdManifest) ⟨.nil⟩ [] "config.yaml" "ssh host" ["httpd"]
          true [] =
        some ⟨(GetPodmanIds (stubEnv [""] "bash: podman: command not found"
            (.error "invalid character") httpdManifest) "ssh host" true []).trace ++
            [Effect.write "config.yaml" "services: ..."],
          some ((stubEnv [""] "bash: podman: command not found" (.error "invalid character")
            httpdManifest).WriteFile
            (GetPodmanIds (stubEnv [""] "bash: podman: command not found"
              (.error "invalid character") httpdManifest) "ssh host" true []).trace
            "config.yaml" "services: ...")⟩ :=
  ⟨rfl,
    SetTripleODataEnv_drops_parse_error
      (stubEnv [""] "bash: podman: command not found" (.error "invalid character") httpdManifest)
      ⟨.nil⟩ httpdManifest [] "config.yaml" "ssh host" ["httpd"] true []
      "bash: podman: command not found" "invalid character" "services: ..." rfl rfl
      rangeOrder_nil_nil rfl rfl⟩

/-- C8, counterexample. The listing is an error message of the shell, not JSON;
`SetTripleODataEnv` returns nil and has written the manifest file. -/
theorem SetTripleODataEnv_parse_error_not_returned :
    SetTripleODataEnv (stubEnv [""] "bash: podman: command not found"
        (.error "invalid character") httpdManifest) ⟨.nil⟩ [] "config.yaml" "ssh host" ["httpd"]
        true [] =
      some ⟨[Effect.exec Caller.GetPodmanIds "ssh host podman ps -a --format json",
        Effect.write "config.yaml" "services: ..."], some none⟩ := by
  decide

/-- C3, the failing input. The manifest has no `services` map (the map is nil)
and one container `a` was discovered: the update loop panics on the assignment
`config.Services[name] = Service{}`, so `SetTripleODataEnv` panics after the
listing command and writes nothing. -/
theorem update_panics_on_nil_services :
    SetTripleODataEnv.update dataA ["a"] ⟨.nil⟩ = none ∧
      SetTripleODataEnv (stubEnv [""] "[...]" (.ok abcRecords) ⟨.nil⟩) ⟨.nil⟩ ["a"] "config.yaml"
          "ssh host" ["a"] true [] =
        some ⟨[Effect.exec Caller.GetPodmanIds "ssh host podman ps -a --format json"], none⟩ := by
  decide

/-- C6, the failing input. One container named `a` whose id is `abc`, and the
filter `a`: the slice `container.ID[:12]` is out of range and `buildPodmanInfo`
panics instead of returning a map. -/
theorem buildPodmanInfo_panics_on_short_id :
    buildPodmanInfo (stubEnv [""] "[...]" (.ok shortIdRecords) httpdManifest) "[...]" ["a"] =
      .panic := by
  decide

/-! ## The update loop on an allocated manifest -/

theorem GoMap.get_cons_same {ν : Type} (k : String) (v : ν) (es : List (String × ν)) :
    (GoMap.make ((k, v) :: es)).get k = some v := by
  simp [GoMap.get, GoMap.entries]

theorem GoMap.get_cons_ne {ν : Type} (k k2 : String) (v : ν) (es : List (String × ν))
    (h : k ≠ k2) : (GoMap.make ((k, v) :: es)).get k2 = (GoMap.make es).get k2 := by
  simp [GoMap.get, GoMap.entries, List.find?, h]

theorem find_filter_ne {ν : Type} (k k2 : String) (es : List (String × ν)) (h : k ≠ k2) :
    (es.filter (fun e => e.1 ≠ k)).find? (fun e => e.1 = k2) = es.find? (fun e => e.1 = k2) := by
  induction es with
  | nil => rfl
  | cons e es ih =>
    by_cases h1 : e.1 = k
    · have h2 : ¬ e.1 = k2 := fun h3 => h (h1.symm.trans h3)
      have hf : List.filter (fun e => decide (e.1 ≠ k)) (e :: es) =
          List.filter (fun e => decide (e.1 ≠ k)) es := by
        simp [List.filter_cons, h1]
      rw [hf, ih]
      simp [List.find?_cons, h2]
    · have hf : List.filter (fun e => decide (e.1 ≠ k)) (e :: es) =
          e :: List.filter (fun e => decide (e.1 ≠ k)) es := by
        simp [List.filter_cons, h1]
      rw [hf]
      simp only [List.find?_cons]
      rw [ih]

theorem GoMap.get_filter_ne {ν : Type} (k k2 : String) (es : List (String × ν)) (h : k ≠ k2) :
    (GoMap.make (es.filter (fun e => e.1 ≠ k))).get k2 = (GoMap.make es).get k2 := by
  simp only [GoMap.get, GoMap.entries]
  rw [find_filter_ne k k2 es h]

theorem update_step_some (data : GoMap (GoMap String)) (name : String) (rest : List String)
    (es : List (String × Service)) (entry : Service)
    (h : (GoMap.make es).get name = some entry) :
    SetTripleODataEnv.update data (name :: rest) ⟨.make es⟩ =
      SetTripleODataEnv.update data rest ⟨.make
        ((name, ⟨entry.Enable, (((data.get name).getD .nil).get "containerid").getD "",
          (((data.get name).getD .nil).get "image").getD "", name, entry.PodName,
          entry.ContainerName, entry.StrictPodNameMatch, entry.Path⟩) ::
          es.filter (fun e => e.1 ≠ name))⟩ := by
  conv => lhs; unfold SetTripleODataEnv.update
  simp [h, GoMap.set]

theorem update_step_none (data : GoMap (GoMap String)) (name : String) (rest : List String)
    (es : List (String × Service)) (h : (GoMap.make es).get name = none) :
    SetTripleODataEnv.update data (name :: rest) ⟨.make es⟩ =
      SetTripleODataEnv.update data rest ⟨.make
        ((name, ⟨Service.zero.Enable, (((data.get name).getD .nil).get "containerid").getD "",
          (((data.get name).getD .nil).get "image").getD "", name, Service.zero.PodName,
          Service.zero.ContainerName, Service.zero.StrictPodNameMatch, Service.zero.Path⟩) ::
          ((name, Service.zero) :: es.filter (fun e => e.1 ≠ name)).filter
            (fun e => e.1 ≠ name))⟩ := by
  conv => lhs; unfold SetTripleODataEnv.update
  simp [h, GoMap.set, GoMap.get_cons_same]

/-- One turn of the update loop on an allocated manifest. -/
theorem update_step (data : GoMap (GoMap String)) (name : String) (rest : List String)
    (es : List (String × Service)) :
    ∃ es1, SetTripleODataEnv.update data (name :: rest) ⟨.make es⟩ =
        SetTripleODataEnv.update data rest ⟨.make es1⟩ ∧
      (GoMap.make es1).get name = some
        ⟨((Config.mk (.make es)).service name).Enable,
          (((data.get name).getD .nil).get "containerid").getD "",
          (((data.get name).getD .nil).get "image").getD "", name,
          ((Config.mk (.make es)).service name).PodName,
          ((Config.mk (.make es)).service name).ContainerName,
          ((Config.mk (.make es)).service name).StrictPodNameMatch,
          ((Config.mk (.make es)).service name).Path⟩ ∧
      ∀ k, k ≠ name → (GoMap.make es1).get k = (GoMap.make es).get k := by
  cases hget : (GoMap.make es).get name with
  | some entry =>
    refine ⟨_, update_step_some data name rest es entry hget, ?_, ?_⟩
    · rw [GoMap.get_cons_same]
      simp [Config.service, hget]
    · intro k hk
      rw [GoMap.get_cons_ne _ _ _ _ (Ne.symm hk), GoMap.get_filter_ne _ _ _ (Ne.symm hk)]
  | none =>
    refine ⟨_, update_step_none data name rest es hget, ?_, ?_⟩
    · rw [GoMap.get_cons_same]
      simp [Config.service, hget]
    · intro k hk
      rw [GoMap.get_cons_ne _ _ _ _ (Ne.symm hk), GoMap.get_filter_ne _ _ _ (Ne.symm hk),
        GoMap.get_cons_ne _ _ _ _ (Ne.symm hk), GoMap.get_filter_ne _ _ _ (Ne.symm hk)]

/-- On an allocated manifest the update loop does not panic; it leaves every
service whose name is not visited as it was, and for every visited name it
yields a service with the discovered id and image and the name, the other
fields being those of the previous entry (of the zero `Service` when there was
none). -/
theorem update_allocated (data : GoMap (GoMap String)) (ks : List String)
    (es : List (String × Service)) :
    ∃ es2, SetTripleODataEnv.update data ks ⟨.make es⟩ = some ⟨.make es2⟩ ∧
      (∀ k, k ∉ ks → (GoMap.make es2).get k = (GoMap.make es).get k) ∧
      ∀ k, k ∈ ks → (GoMap.make es2).get k = some
        ⟨((Config.mk (.make es)).service k).Enable,
          (((data.get k).getD .nil).get "containerid").getD "",
          (((data.get k).getD .nil).get "image").getD "", k,
          ((Config.mk (.make es)).service k).PodName,
          ((Config.mk (.make es)).service k).ContainerName,
          ((Config.mk (.make es)).service k).StrictPodNameMatch,
          ((Config.mk (.make es)).service k).Path⟩ := by
  induction ks generalizing es with
  | nil => exact ⟨es, rfl, fun _ _ => rfl, fun k hk => absurd hk (by simp)⟩
  | cons name rest ih =>
    obtain ⟨es1, h1, hname, hother⟩ := update_step data name rest es
    obtain ⟨es2, h2, hframe, hupd⟩ := ih es1
    refine ⟨es2, by rw [h1, h2], ?_, ?_⟩
    · intro k hk
      have hk1 : k ≠ name := fun h => hk (by simp [h])
      have hk2 : k ∉ rest := fun h => hk (by simp [h])
      rw [hframe k hk2, hother k hk1]
    · intro k hk
      by_cases hr : k ∈ rest
      · rw [hupd k hr]
        by_cases hkn : k = name
        · subst hkn
          simp [Config.service, hname]
        · simp [Config.service, hother k hkn]
      · have hkn : k = name := by
          rcases List.mem_cons.mp hk with h | h
          · exact h
          · exact absurd h hr
        subst hkn
        rw [hframe k hr, hname]

/-! ## The slice of the id -/

theorem len_mk_cons (c : Char) (l : List Char) :
    len (String.mk (c :: l)) = len (String.mk l) + c.utf8Size := by
  simp [len, String.utf8ByteSize, String.utf8ByteSize.go]

theorem len_mk_nil : len (String.mk []) = 0 := by
  simp [len, String.utf8ByteSize, String.utf8ByteSize.go]

/-- When `takeBytes` gives a text, that text is a prefix of the input and has
exactly the number of bytes asked for. -/
theorem takeBytes_text (cs : List Char) :
    ∀ (n : Nat) (s : String), takeBytes cs n = .text s → s.data <+: cs ∧ len s = n := by
  induction cs with
  | nil =>
    intro n s h
    unfold takeBytes at h
    by_cases hn : n = 0
    · simp only [hn, if_true, Slice.text.injEq] at h
      subst h
      subst hn
      exact ⟨List.prefix_refl _, by decide⟩
    · simp [hn] at h
  | cons c cs ih =>
    intro n s h
    unfold takeBytes at h
    by_cases hn : n = 0
    · simp only [hn, if_true, Slice.text.injEq] at h
      subst h
      subst hn
      exact ⟨List.nil_prefix, by decide⟩
    · simp only [hn, if_false] at h
      by_cases hc : c.utf8Size ≤ n
      · simp only [hc, if_true] at h
        cases ht : takeBytes cs (n - c.utf8Size) with
        | outOfRange => simp [ht, Slice.push] at h
        | torn => simp [ht, Slice.push] at h
        | text t =>
          simp only [ht, Slice.push, Slice.text.injEq] at h
          obtain ⟨hp, hl⟩ := ih _ _ ht
          subst h
          refine ⟨?_, ?_⟩
          · simp only
            exact List.prefix_cons_inj c |>.mpr hp
          · have ht2 : String.mk t.data = t := rfl
            rw [len_mk_cons, ht2, hl]
            omega
      · simp [hc] at h

/-- The slice is out of range in `takeBytes` exactly when the text has fewer
bytes than asked for. -/
theorem takeBytes_outOfRange (cs : List Char) :
    ∀ n : Nat, takeBytes cs n = .outOfRange ↔ len (String.mk cs) < n := by
  induction cs with
  | nil =>
    intro n
    unfold takeBytes
    rw [len_mk_nil]
    by_cases hn : n = 0
    · simp [hn]
    · simp [hn]
      omega
  | cons c cs ih =>
    intro n
    unfold takeBytes
    rw [len_mk_cons]
    by_cases hn : n = 0
    · simp [hn]
    · simp only [hn, if_false]
      by_cases hc : c.utf8Size ≤ n
      · simp only [hc, if_true]
        have := ih (n - c.utf8Size)
        cases ht : takeBytes cs (n - c.utf8Size) with
        | outOfRange =>
          have h2 := this.mp ht
          simp only [Slice.push, true_iff]
          omega
        | torn =>
          simp only [Slice.push]
          constructor
          · intro h3
            cases h3
          · intro h3
            have h4 : takeBytes cs (n - c.utf8Size) = .outOfRange := this.mpr (by omega)
            rw [ht] at h4
            cases h4
        | text t =>
          simp only [Slice.push]
          constructor
          · intro h3
            cases h3
          · intro h3
            have h4 : takeBytes cs (n - c.utf8Size) = .outOfRange := this.mpr (by omega)
            rw [ht] at h4
            cases h4
      · simp only [hc, if_false]
        constructor
        · intro h3
          cases h3
        · intro h3
          omega

/-- The text given by `sliceTo12` is made of the first 12 bytes of the id. -/
theorem sliceTo12_text (s t : String) (h : sliceTo12 s = .text t) :
    t.data <+: s.data ∧ len t = 12 := by
  unfold sliceTo12 at h
  by_cases hl : len s < 12
  · simp [hl] at h
  · simp only [hl, if_false] at h
    exact takeBytes_text s.data 12 t h

/-- The slice panics exactly on the ids of fewer than 12 bytes. -/
theorem sliceTo12_outOfRange (s : String) : sliceTo12 s = .outOfRange ↔ len s < 12 := by
  unfold sliceTo12
  by_cases hl : len s < 12
  · simp [hl]
  · simp only [hl, if_false, iff_false]
    intro h
    exact hl ((takeBytes_outOfRange s.data 12).mp h)

/-- The slice on four ids: 16 ASCII bytes are cut to 12 characters; 7
characters of two bytes are cut to 6 characters (12 bytes); an id whose byte 12
falls inside a character is torn; 3 bytes are out of range. -/
theorem sliceTo12_examples :
    sliceTo12 "0123456789abcdef" = .text "0123456789ab" ∧
      sliceTo12 "ééééééé" = .text "éééééé" ∧
      sliceTo12 "aéééééé" = .torn ∧
      sliceTo12 "abc" = .outOfRange := by
  decide

/-! ## `buildPodmanInfo` when the first 12 bytes of the ids are text -/

theorem filterMap_get (fs : List String) (es : List (String × Unit)) (name : String) :
    ((GoMap.make (buildPodmanInfo.filterMap fs es)).get name).isSome = true ↔
      name ∈ fs ∨ ((GoMap.make es).get name).isSome = true := by
  induction fs generalizing es with
  | nil => simp [buildPodmanInfo.filterMap]
  | cons f rest ih =>
    unfold buildPodmanInfo.filterMap
    rw [ih]
    by_cases h : f = name
    · subst h
      simp [GoMap.get_cons_same]
    · have h2 : ¬ name = f := fun h3 => h h3.symm
      rw [GoMap.get_cons_ne _ _ _ _ h, GoMap.get_filter_ne _ _ _ h]
      simp [h2]

theorem filterMap_mem (fs : List String) (name : String) :
    ((GoMap.make (buildPodmanInfo.filterMap fs [])).get name).isSome = true ↔ name ∈ fs := by
  rw [filterMap_get]
  simp [GoMap.get, GoMap.entries]

/-- The loop over the names of one container, when the first 12 bytes of its id
are the text `id`. -/
theorem names_text (fm : GoMap Unit) (c : PodmanContainer) (id : String) (ns : List String)
    (es : List (String × GoMap String))
    (hid : ∀ n ∈ ns, (fm.get n).isSome = true → sliceTo12 c.ID = .text id) :
    ∃ es2, buildPodmanInfo.names fm c ns (.make es) = .ok (.make es2) ∧
      ∀ name, (GoMap.make es2).get name =
        if name ∈ ns ∧ (fm.get name).isSome = true then
          some (.make [("containerid", id), ("image", c.Image)])
        else (GoMap.make es).get name := by
  induction ns generalizing es with
  | nil => exact ⟨es, rfl, by simp⟩
  | cons n rest ih =>
    have hrest : ∀ m ∈ rest, (fm.get m).isSome = true → sliceTo12 c.ID = .text id :=
      fun m hm => hid m (by simp [hm])
    by_cases hf : (fm.get n).isSome = true
    · obtain ⟨es2, h2, hget⟩ := ih
        ((n, .make [("containerid", id), ("image", c.Image)]) ::
          es.filter (fun e => e.1 ≠ n)) hrest
      refine ⟨es2, ?_, ?_⟩
      · rw [buildPodmanInfo.names]
        simp only [hf, if_true, hid n (by simp) hf, GoMap.set]
        exact h2
      · intro name
        rw [hget name]
        by_cases hn : name = n
        · subst hn
          simp [hf, GoMap.get_cons_same]
        · have hn2 : n ≠ name := fun h => hn h.symm
          rw [GoMap.get_cons_ne _ _ _ _ hn2, GoMap.get_filter_ne _ _ _ hn2]
          simp [hn]
    · obtain ⟨es2, h2, hget⟩ := ih es hrest
      refine ⟨es2, ?_, ?_⟩
      · rw [buildPodmanInfo.names]
        simp only [hf, Bool.false_eq_true, if_false]
        exact h2
      · intro name
        rw [hget name]
        by_cases hn : name = n
        · subst hn
          simp [hf]
        · simp [hn]

/-- The loop over the containers, when the first 12 bytes of the id of every
container that carries a filtered name are text: no panic, a name carried by no
container keeps its entry, and a filtered name gets the first 12 bytes of the
id and the image of the last container that carries it. -/
theorem containers_text (fm : GoMap Unit) (cs : List PodmanContainer)
    (es : List (String × GoMap String))
    (hid : ∀ c ∈ cs, ∀ n ∈ c.Names, (fm.get n).isSome = true →
      ∃ id, sliceTo12 c.ID = .text id) :
    ∃ es2, buildPodmanInfo.containers fm cs (.make es) = .ok (.make es2) ∧
      (∀ name, (∀ c ∈ cs, ¬ (name ∈ c.Names ∧ (fm.get name).isSome = true)) →
        (GoMap.make es2).get name = (GoMap.make es).get name) ∧
      ∀ name pre c post id, cs = pre ++ c :: post → name ∈ c.Names →
        (fm.get name).isSome = true → (∀ c2 ∈ post, name ∉ c2.Names) →
        sliceTo12 c.ID = .text id →
        (GoMap.make es2).get name =
          some (.make [("containerid", id), ("image", c.Image)]) := by
  induction cs generalizing es with
  | nil =>
    refine ⟨es, rfl, fun _ _ => rfl, ?_⟩
    intro name pre c post id h
    simp at h
  | cons c0 cs ih =>
    have hone : ∃ id0, ∀ n ∈ c0.Names, (fm.get n).isSome = true →
        sliceTo12 c0.ID = .text id0 := by
      cases hs : sliceTo12 c0.ID with
      | text t => exact ⟨t, fun _ _ _ => rfl⟩
      | outOfRange =>
        refine ⟨"", fun n hn hf => ?_⟩
        obtain ⟨id, h⟩ := hid c0 (by simp) n hn hf
        rw [hs] at h
        cases h
      | torn =>
        refine ⟨"", fun n hn hf => ?_⟩
        obtain ⟨id, h⟩ := hid c0 (by simp) n hn hf
        rw [hs] at h
        cases h
    obtain ⟨id0, hid0⟩ := hone
    obtain ⟨es1, h1, hget1⟩ := names_text fm c0 id0 c0.Names es hid0
    obtain ⟨es2, h2, hkeep, hlast⟩ := ih es1 (fun c hc => hid c (by simp [hc]))
    refine ⟨es2, ?_, ?_, ?_⟩
    · rw [buildPodmanInfo.containers]
      simp only [h1]
      exact h2
    · intro name hno
      rw [hkeep name (fun c hc => hno c (by simp [hc])), hget1 name]
      rw [if_neg (hno c0 (by simp))]
    · intro name pre c post id hsplit hname hfilter hpost hslice
      cases pre with
      | nil =>
        simp only [List.nil_append, List.cons.injEq] at hsplit
        obtain ⟨rfl, rfl⟩ := hsplit
        rw [hkeep name (fun c2 hc2 h => hpost c2 hc2 h.1), hget1 name]
        rw [if_pos ⟨hname, hfilter⟩]
        have := hid0 name hname hfilter
        rw [hslice] at this
        cases this
        rfl
      | cons p pre =>
        simp only [List.cons_append, List.cons.injEq] at hsplit
        exact hlast name pre c post id hsplit.2 hname hfilter hpost hslice

/-- Among the containers that carry a name there is a last one. -/
theorem last_carrier (name : String) (cs : List PodmanContainer)
    (h : ∃ c ∈ cs, name ∈ c.Names) :
    ∃ pre c1 post, cs = pre ++ c1 :: post ∧ name ∈ c1.Names ∧
      ∀ c2 ∈ post, name ∉ c2.Names := by
  induction cs with
  | nil =>
    obtain ⟨c, hc, -⟩ := h
    simp at hc
  | cons c0 cs ih =>
    by_cases hlater : ∃ c3 ∈ cs, name ∈ c3.Names
    · obtain ⟨pre, c1, post, h1, h2, h3⟩ := ih hlater
      exact ⟨c0 :: pre, c1, post, by simp [h1], h2, h3⟩
    · obtain ⟨c, hc, hn⟩ := h
      have hc0 : c = c0 := by
        rcases List.mem_cons.mp hc with h | h
        · exact h
        · exact absurd ⟨c, h, hn⟩ hlater
      subst hc0
      exact ⟨[], c, cs, rfl, hn, fun c2 hc2 h => hlater ⟨c2, hc2, h⟩⟩

/-- When the listing parses and, for every container that carries a filtered
name, the id has at least 12 bytes and its first 12 bytes are text,
`buildPodmanInfo` returns a map and no error; its keys are exactly the names
that occur in some record and in the filter list, and each key is mapped to the
first 12 bytes of the id and to the image of the last record that carries
it. -/
theorem buildPodmanInfo_text_ids (env : Env) (output : String) (filters : List String)
    (cs : List PodmanContainer) (hparse : env.Unmarshal output = .ok cs)
    (hid : ∀ c ∈ cs, ∀ n ∈ c.Names, n ∈ filters → ∃ id, sliceTo12 c.ID = .text id) :
    ∃ data, buildPodmanInfo env output filters = .ok (data, none) ∧
      (∀ name, (data.get name).isSome = true ↔
        (name ∈ filters ∧ ∃ c ∈ cs, name ∈ c.Names)) ∧
      ∀ name pre c post id, cs = pre ++ c :: post → name ∈ c.Names → name ∈ filters →
        (∀ c2 ∈ post, name ∉ c2.Names) → sliceTo12 c.ID = .text id →
        data.get name = some (.make [("containerid", id), ("image", c.Image)]) := by
  obtain ⟨es2, h2, hkeep, hlast⟩ := containers_text
    (.make (buildPodmanInfo.filterMap filters [])) cs []
    (fun c hc n hn hf => hid c hc n hn ((filterMap_mem filters n).mp hf))
  refine ⟨.make es2, ?_, ?_, ?_⟩
  · simp [buildPodmanInfo, hparse, h2]
  · intro name
    by_cases hex : ∃ c ∈ cs, name ∈ c.Names ∧ name ∈ filters
    · obtain ⟨c, hc, hn, hf⟩ := hex
      obtain ⟨pre, c1, post, h1, hn1, hp1⟩ := last_carrier name cs ⟨c, hc, hn⟩
      have hc1 : c1 ∈ cs := by
        rw [h1]
        simp
      obtain ⟨id, hslice⟩ := hid c1 hc1 name hn1 hf
      rw [hlast name pre c1 post id h1 hn1 ((filterMap_mem filters name).mpr hf) hp1 hslice]
      simp only [Option.isSome_some, true_iff]
      exact ⟨hf, c, hc, hn⟩
    · have hno : ∀ c ∈ cs, ¬ (name ∈ c.Names ∧
          ((GoMap.make (buildPodmanInfo.filterMap filters [])).get name).isSome = true) := by
        intro c hc h
        exact hex ⟨c, hc, h.1, (filterMap_mem filters name).mp h.2⟩
      rw [hkeep name hno]
      constructor
      · intro h
        simp [GoMap.get, GoMap.entries] at h
      · intro h
        obtain ⟨hf, c, hc, hn⟩ := h
        exact absurd ⟨c, hc, hn, hf⟩ hex
  · intro name pre c post id hsplit hname hfilter hpost hslice
    exact hlast name pre c post id hsplit hname ((filterMap_mem filters name).mpr hfilter) hpost
      hslice

/-- The outcomes of `buildPodmanInfo` on ids that are not ASCII: seven
characters of two bytes each are cut to the first six (12 bytes); when byte 12
falls inside a character the result is not text. -/
theorem buildPodmanInfo_wide_ids :
    buildPodmanInfo (stubEnv [""] "[...]" (.ok wideIdRecords) httpdManifest) "[...]" ["a"] =
        .ok (.make [("a", .make [("containerid", "éééééé"), ("image", "img")])], none) ∧
      buildPodmanInfo (stubEnv [""] "[...]" (.ok tornIdRecords) httpdManifest) "[...]" ["a"] =
        .notText := by
  decide

/-- The example of the updater: containers `a`, `b`, `c` are listed and the
filters are `a` and `c`. The discovered data has the keys `a` and `c` only, and
on a manifest that holds the service `b` the update loop writes `a` and `c` and
leaves `b` as it was. -/
theorem discovery_abc_example :
    buildPodmanInfo (stubEnv [""] "[...]" (.ok abcRecords) bManifest) "[...]" ["a", "c"] =
        .ok (.make [("c", .make [("containerid", "cccccccccccc"), ("image", "img-c")]),
          ("a", .make [("containerid", "aaaaaaaaaaaa"), ("image", "img-a")])], none) ∧
      SetTripleODataEnv.update
          (.make [("c", .make [("containerid", "cccccccccccc"), ("image", "img-c")]),
            ("a", .make [("containerid", "aaaaaaaaaaaa"), ("image", "img-a")])])
          ["c", "a"] bManifest =
        some ⟨.make [("a", ⟨false, "aaaaaaaaaaaa", "img-a", "a", "", "", false, []⟩),
          ("c", ⟨false, "cccccccccccc", "img-c", "c", "", "", false, []⟩),
          ("b", ⟨true, "bbbbbbbbbbbb", "img-b", "b", "b-pod", "b-ctr", true, ["/etc/b"]⟩)]⟩ := by
  decide

end OsDiff
